import Mathlib

/-!
# candi scaffolding engine: configuration model and path helpers

A shallow embedding of `cmd/candi/types.go` (with `defaultDataSource` from
`cmd/candi/template_module.go`) and of the option functions `SetRootPath`,
`SetRootMiddlewares` and `AddRootMiddlewares` of
`codebase/app/rest_server/option.go`, and the properties proved about them.

Conventions of the embedding:

* a Go `string` is a sequence of bytes; it is modelled as `List Char`
  (`GoString`).  Every function embedded here only inspects the ASCII bytes
  `'/'`, `'.'`, `'*'`, `':'`, `'-'` and copies every other byte, so the
  behaviour on UTF-8 text is the same element by element;
* a method with a pointer receiver that mutates its receiver returns the new
  receiver value (together with the Go return value when there is one);
* embedded structs (`configHeader`, `config`) are parent structures;
* the standard-library functions used by the source (`strings.NewReplacer`
  for single-byte patterns, `strings.LastIndex`, `strings.HasPrefix`,
  `strings.TrimPrefix`, `strings.Join`, `strings.Trim` for a one-byte cutset,
  `filepath.Dir`, `filepath.Clean`) are embedded from their Go implementation
  for a Unix target (separator `'/'`, no volume name); `os.Stat` and the
  success of `os.WriteFile` are inputs, and the effect of `os.WriteFile` on
  the file system state follows its documentation.
-/

namespace Candi

/-- A Go string, as the sequence of its elements. -/
abbrev GoString := List Char

/-! ## Data model (`types.go`) -/

/-- Invocation parameters: `type flagParameter struct`. -/
structure flagParameter where
  scopeFlag : GoString
  packagePrefixFlag : GoString
  protoOutputPkgFlag : GoString
  outputFlag : GoString
  libraryNameFlag : GoString
  withGoModFlag : Bool
  run : Bool
  all : Bool
  initService : Bool
  addModule : Bool
  addHandler : Bool
  initMonorepo : Bool
  version : Bool
  isMonorepo : Bool
  serviceName : GoString
  moduleName : GoString
  monorepoProjectName : GoString
  modules : List GoString
  deriving DecidableEq, Repr

/-- Generation metadata: `type configHeader struct`. -/
structure configHeader where
  GoVersion : GoString
  Version : GoString
  Header : GoString
  ServiceName : GoString
  PackagePrefix : GoString
  ProtoSource : GoString
  OutputDir : GoString
  Owner : GoString
  License : GoString
  Year : Int
  deriving DecidableEq, Repr

/-- Handler configuration: `type config struct`. -/
structure config where
  IsMonorepo : Bool
  RestHandler : Bool
  GRPCHandler : Bool
  GraphQLHandler : Bool
  FiberRestHandler : Bool
  KafkaHandler : Bool
  SchedulerHandler : Bool
  RedisSubsHandler : Bool
  TaskQueueHandler : Bool
  PostgresListenerHandler : Bool
  RabbitMQHandler : Bool
  IsWorkerActive : Bool
  RedisDeps : Bool
  SQLDeps : Bool
  MongoDeps : Bool
  SQLUseGORM : Bool
  ArangoDeps : Bool
  SQLDriver : GoString
  WorkerPlugins : List GoString
  deriving DecidableEq, Repr

/-- Per-module configuration: `type moduleConfig struct`. -/
structure moduleConfig extends configHeader, config where
  ModuleName : GoString
  Skip : Bool
  deriving DecidableEq, Repr

/-- Service configuration: `type serviceConfig struct`.  The element type
`Plugin` of the `workerPlugins` map is declared outside the embedded files and
is a parameter; the map is kept as an association list.  The pointer field
`flag` is `none` when nil. -/
structure serviceConfig (Plugin : Type) extends configHeader, config where
  Modules : List moduleConfig
  flag : Option flagParameter
  workerPlugins : List (GoString × Plugin)

/-! ## Errors and process outcomes -/

/-- The non-nil `error` values the embedded functions handle.
`red msg` is `fmt.Errorf(RedFormat, msg)`; `stat notExist tag` is an error
returned by `os.Stat`, with `notExist` the answer of `os.IsNotExist` on it. -/
inductive GoError where
  | red (msg : GoString)
  | stat (notExist : Bool) (tag : Nat)
  deriving DecidableEq, Repr

/-- A Go `error`: `none` is nil. -/
abbrev error := Option GoError

/-- The predicate `os.IsNotExist(err)`. -/
def IsNotExist : error → Bool
  | some (GoError.stat true _) => true
  | _ => false

/-- How a call ends: it returns a value to its caller, or the process is
terminated by `os.Exit(code)` after `printed` was written to standard
output. -/
inductive Outcome (α : Type) where
  | returned (value : α)
  | exited (code : Nat) (printed : GoString)
  deriving DecidableEq, Repr

/-! ## `flagParameter` methods -/

/-- The method `flagParameter.parseMonorepoFlag`: the updated receiver and
the returned error. -/
def parseMonorepoFlag (f : flagParameter) : flagParameter × error :=
  let f := { f with packagePrefixFlag := "monorepo/services".toList }
  let f := { f with withGoModFlag := false }
  let f := { f with protoOutputPkgFlag := "monorepo/sdk".toList }
  let f := { f with outputFlag := "services/".toList }
  if (f.scopeFlag = "2".toList || f.scopeFlag = "3".toList) && f.serviceName = [] then
    (f, some (GoError.red
      "missing service name, make sure to include '-service' flag".toList))
  else
    (f, none)

/-- The method `flagParameter.validateServiceName`, with `os.Stat` given as
the function `stat` from a path to the error it returns. -/
def validateServiceName (stat : GoString → error) (f : flagParameter) :
    Outcome error :=
  let err := stat (f.outputFlag ++ f.serviceName)
  if IsNotExist err then
    Outcome.returned (some (GoError.red
      ("Service \"".toList ++ f.serviceName ++ "\" is not exist in \"".toList
        ++ f.outputFlag ++ "\" directory".toList)))
  else
    Outcome.returned none

/-- The method `flagParameter.validateModuleName`, with `os.Stat` given as
the function `stat`.  The text handed to `fmt.Printf(RedFormat, ...)` is the
`printed` component of the exit outcome. -/
def validateModuleName (stat : GoString → error) (f : flagParameter)
    (moduleName : GoString) : Outcome error :=
  let err := stat (f.outputFlag ++ f.serviceName ++ "/internal/modules/".toList ++ moduleName)
  if IsNotExist err then
    Outcome.exited 1
      ("Module \"".toList ++ moduleName ++ "\" is not exist in service \"".toList
        ++ f.serviceName ++ "\"".toList)
  else
    Outcome.returned err

/-! ## `serviceConfig` and `config` methods -/

/-- The method `serviceConfig.getRootDir`.  The result is `none` when the
call panics on a nil `flag`; the named result `rootDir` starts as the empty
string and the final bare `return` returns it. -/
def getRootDir {Plugin : Type} (s : serviceConfig Plugin) : Option GoString :=
  match s.flag with
  | none => none
  | some flag =>
    let rootDir : GoString := []
    if s.IsMonorepo || flag.initService then
      some (flag.outputFlag ++ s.ServiceName ++ "/".toList)
    else
      some rootDir

/-- The method `config.checkWorkerActive`: the returned value and the updated
receiver. -/
def checkWorkerActive (s : config) : Bool × config :=
  let s := { s with IsWorkerActive :=
    s.KafkaHandler ||
    s.SchedulerHandler ||
    s.RedisSubsHandler ||
    s.PostgresListenerHandler ||
    s.TaskQueueHandler ||
    s.RabbitMQHandler ||
    Decidable.decide (s.WorkerPlugins.length > 0) }
  (s.IsWorkerActive, s)

/-- The method `serviceConfig.disableAllHandler`: the updated receiver. -/
def disableAllHandler {Plugin : Type} (s : serviceConfig Plugin) : serviceConfig Plugin :=
  let s := { s with RestHandler := false }
  let s := { s with GRPCHandler := false }
  let s := { s with GraphQLHandler := false }
  let s := { s with KafkaHandler := false }
  let s := { s with SchedulerHandler := false }
  let s := { s with RedisSubsHandler := false }
  let s := { s with TaskQueueHandler := false }
  let s := { s with PostgresListenerHandler := false }
  let s := { s with RabbitMQHandler := false }
  s

/-- The method `moduleConfig.constructModuleWorkerActivation`. -/
def constructModuleWorkerActivation (m : moduleConfig) : List GoString :=
  let workerActivations : List GoString := []
  let workerActivations :=
    if m.KafkaHandler then workerActivations ++ ["types.Kafka".toList] else workerActivations
  let workerActivations :=
    if m.SchedulerHandler then workerActivations ++ ["types.Scheduler".toList]
    else workerActivations
  let workerActivations :=
    if m.RedisSubsHandler then workerActivations ++ ["types.RedisSubscriber".toList]
    else workerActivations
  let workerActivations :=
    if m.TaskQueueHandler then workerActivations ++ ["types.TaskQueue".toList]
    else workerActivations
  let workerActivations :=
    if m.PostgresListenerHandler then workerActivations ++ ["types.PostgresListener".toList]
    else workerActivations
  let workerActivations :=
    if m.RabbitMQHandler then workerActivations ++ ["types.RabbitMQ".toList]
    else workerActivations
  workerActivations

/-- The promoted method `checkWorkerActive` called on a `serviceConfig`: it
runs on the embedded `config` and the update is seen in the service
configuration. -/
def serviceConfig.checkWorkerActive {Plugin : Type} (s : serviceConfig Plugin) :
    Bool × serviceConfig Plugin :=
  let r := Candi.checkWorkerActive s.toconfig
  (r.1, { s with toconfig := r.2 })

/-! ## The two cleaning replacers (`strings.NewReplacer`) -/

/-- The argument list of `strings.NewReplacer`, read as old/new pairs. -/
def oldnewPairs : List GoString → List (GoString × GoString)
  | o :: n :: rest => (o, n) :: oldnewPairs rest
  | _ => []

/-- The replacement registered for the byte `b`: the new string of the first
pair whose old string is the single byte `b` (the first occurrence of an old
string takes precedence), `none` when no pair has it. -/
def replacementOf : List (GoString × GoString) → Char → Option GoString
  | [], _ => none
  | (o, n) :: rest, b => if o = [b] then some n else replacementOf rest b

/-- The method `Replace` of a replacer built from old strings that are all
single bytes with at least one new string that is not a single byte, which is
the algorithm (`byteStringReplacer`) `strings.NewReplacer` selects for both
replacers of the source: every byte with a registered replacement is replaced
by it, every other byte is copied. -/
def Replace (oldnew : List GoString) : GoString → GoString
  | [] => []
  | b :: rest =>
    (match replacementOf (oldnewPairs oldnew) b with
      | some n => n
      | none => [b]) ++ Replace oldnew rest

/-- The variable `specialChar`. -/
def specialChar : List GoString :=
  ["*".toList, "".toList, "/".toList, "".toList, ":".toList, "".toList]

/-- The function `cleanSpecialChar.Replace`, with
`cleanSpecialChar = strings.NewReplacer(append(specialChar, "-", "")...)`. -/
def cleanSpecialChar : GoString → GoString :=
  Replace (specialChar ++ ["-".toList, "".toList])

/-- The function `modulePathReplacer.Replace`, with
`modulePathReplacer = strings.NewReplacer(specialChar...)`. -/
def modulePathReplacer : GoString → GoString :=
  Replace specialChar

/-! ## Path functions of the standard library (Unix) -/

/-- The loop of `bytealg.LastIndexByteString`:
`for i := len(s) - 1; i >= 0; i-- { if s[i] == c { return i } }; return -1`,
with the argument `i + 1` for the current index `i`. -/
def LastIndexByteLoop (s : GoString) (c : Char) : Nat → Int
  | 0 => -1
  | i + 1 => if s.getD i c = c then (i : Int) else LastIndexByteLoop s c i

/-- The function `strings.LastIndex(s, substr)` for a one-byte `substr`, which
is `bytealg.LastIndexByteString(s, substr[0])`. -/
def LastIndexByteString (s : GoString) (c : Char) : Int :=
  LastIndexByteLoop s c s.length

/-- The backtracking loop of `filepath.Clean` on a `..` element, entered after
`out.w--`: `for out.w > dotdot && !os.IsPathSeparator(out.index(out.w)) { out.w-- }`.
The argument is the current `out.w`, the result the final one. -/
def backtrackTo (buf : GoString) (dotdot : Nat) : Nat → Nat
  | 0 => 0
  | w + 1 =>
    if dotdot < w + 1 ∧ buf.getD (w + 1) '/' ≠ '/' then backtrackTo buf dotdot w else w + 1

/-- The main loop `for r < n` of `filepath.Clean`.  The arguments are the
unread input `path[r:]`, the output written so far (`out.w` is its length)
and `dotdot`; the first argument bounds the number of iterations, and each
iteration reads at least one byte. -/
def cleanLoop (rooted : Bool) : Nat → GoString → GoString → Nat → GoString
  | 0, _, out, _ => out
  | _ + 1, [], out, _ => out
  | fuel + 1, c :: rest, out, dotdot =>
    if c = '/' then
      cleanLoop rooted fuel rest out dotdot
    else if c = '.' ∧ (rest = [] ∨ rest.head? = some '/') then
      cleanLoop rooted fuel rest out dotdot
    else if c = '.' ∧ rest.head? = some '.' ∧
        (rest.tail = [] ∨ rest.tail.head? = some '/') then
      if dotdot < out.length then
        cleanLoop rooted fuel rest.tail
          (out.take (backtrackTo out dotdot (out.length - 1))) dotdot
      else if rooted = false then
        let out1 := if 0 < out.length then out ++ ['/'] else out
        let out2 := out1 ++ ['.', '.']
        cleanLoop rooted fuel rest.tail out2 out2.length
      else
        cleanLoop rooted fuel rest.tail out dotdot
    else
      let out1 :=
        if (rooted = true ∧ out.length ≠ 1) ∨ (rooted = false ∧ out.length ≠ 0) then
          out ++ ['/']
        else out
      cleanLoop rooted fuel ((c :: rest).dropWhile (fun b => b != '/'))
        (out1 ++ (c :: rest).takeWhile (fun b => b != '/')) dotdot

/-- The function `filepath.Clean` (the lazily allocated output buffer is a
plain list). -/
def Clean (path : GoString) : GoString :=
  if path = [] then ['.']
  else
    let rooted : Bool := path.head? = some '/'
    let out :=
      if rooted then cleanLoop rooted (path.length + 1) path.tail ['/'] 1
      else cleanLoop rooted (path.length + 1) path [] 0
    if out.length = 0 then ['.'] else out

/-- The scan of `filepath.Dir`:
`i := len(path) - 1; for i >= 0 && !os.IsPathSeparator(path[i]) { i-- }`,
with the argument `i + 1` for the current index `i`; the result is the final
`i + 1`. -/
def dirSplitIndex (path : GoString) : Nat → Nat
  | 0 => 0
  | k + 1 => if path.getD k '/' ≠ '/' then dirSplitIndex path k else k + 1

/-- The function `filepath.Dir`. -/
def Dir (path : GoString) : GoString :=
  Clean (path.take (dirSplitIndex path path.length))

/-! ## File tree nodes -/

/-- The model `type FileStructure struct`; `D` is the type of the values
stored in the `DataSource` field. -/
structure FileStructure (D : Type) where
  TargetDir : GoString
  IsDir : Bool
  FromTemplate : Bool
  DataSource : D
  Source : GoString
  FileName : GoString
  Skip : Bool
  SkipAll : Bool
  SkipIfExist : Bool
  Childs : List (FileStructure D)

/-- The data handed to `loadTemplate`: the `DataSource` of a node, or a
`map[string]string` literal. -/
inductive TemplateData (D : Type) where
  | node (data : D)
  | stringMap (entries : List (GoString × GoString))

/-- The constant `defaultFile`. -/
def defaultFile : GoString := "package \x7b\x7b$.packageName\x7d\x7d".toList

/-- The function `defaultDataSource`; the template loader `loadTemplate` is
declared outside the embedded files and is a parameter. -/
def defaultDataSource {D : Type} (loadTemplate : GoString → TemplateData D → GoString)
    (fileName : GoString) : GoString :=
  loadTemplate defaultFile (TemplateData.stringMap [("packageName".toList, fileName)])

/-- The method `FileStructure.parseTemplate`; the template loader
`loadTemplate` is a parameter. -/
def parseTemplate {D : Type} (loadTemplate : GoString → TemplateData D → GoString)
    (f : FileStructure D) : GoString :=
  if f.FromTemplate then
    if f.Source ≠ [] then
      loadTemplate f.Source (TemplateData.node f.DataSource)
    else
      let lastDir := Dir f.TargetDir
      defaultDataSource loadTemplate
        (lastDir.drop (LastIndexByteString lastDir '/' + 1).toNat)
  else
    f.Source

/-- A template loader that shows the data it is given: on a string map it
yields `package ` followed by the entry `packageName`, the text the template
`defaultFile` stands for; on other data it yields the source. -/
def stubLoader {D : Type} : GoString → TemplateData D → GoString
  | _, TemplateData.stringMap entries =>
    "package ".toList ++ ((entries.lookup "packageName".toList).getD [])
  | source, TemplateData.node _ => source

/-- A file node whose fields are zero except for the target directory, the
`FromTemplate` flag and the source. -/
def FileStructure.ofTarget (targetDir : GoString) ( fromTemplate : Bool) (source : GoString) :
    FileStructure Unit :=
  { TargetDir := targetDir, IsDir := false, FromTemplate := fromTemplate, DataSource := (),
    Source := source, FileName := [], Skip := false, SkipAll := false, SkipIfExist := false,
    Childs := [] }

/-- A path element that `filepath.Clean` keeps as it is: non-empty, without
separator, and neither `.` nor `..`. -/
def plainElement (name : GoString) : Prop :=
  name ≠ [] ∧ '/' ∉ name ∧ name ≠ ['.'] ∧ name ≠ ['.', '.']

/-! ## Zero values, used to write concrete inputs -/

/-- The zero value of `flagParameter`. -/
def flagParameter.zero : flagParameter :=
  { scopeFlag := [], packagePrefixFlag := [], protoOutputPkgFlag := [], outputFlag := [],
    libraryNameFlag := [], withGoModFlag := false, run := false, all := false,
    initService := false, addModule := false, addHandler := false, initMonorepo := false,
    version := false, isMonorepo := false, serviceName := [], moduleName := [],
    monorepoProjectName := [], modules := [] }

/-- The zero value of `configHeader`. -/
def configHeader.zero : configHeader :=
  { GoVersion := [], Version := [], Header := [], ServiceName := [], PackagePrefix := [],
    ProtoSource := [], OutputDir := [], Owner := [], License := [], Year := 0 }

/-- The zero value of `config`. -/
def config.zero : config :=
  { IsMonorepo := false, RestHandler := false, GRPCHandler := false, GraphQLHandler := false,
    FiberRestHandler := false, KafkaHandler := false, SchedulerHandler := false,
    RedisSubsHandler := false, TaskQueueHandler := false, PostgresListenerHandler := false,
    RabbitMQHandler := false, IsWorkerActive := false, RedisDeps := false, SQLDeps := false,
    MongoDeps := false, SQLUseGORM := false, ArangoDeps := false, SQLDriver := [],
    WorkerPlugins := [] }

/-- The zero value of `moduleConfig`. -/
def moduleConfig.zero : moduleConfig :=
  { toconfigHeader := configHeader.zero, toconfig := config.zero, ModuleName := [],
    Skip := false }

/-- A `serviceConfig` whose fields are zero except for the given handler
configuration, service name and flag pointer. -/
def serviceConfig.ofParts (c : config) (serviceName : GoString) (flag : Option flagParameter) :
    serviceConfig Unit :=
  { toconfigHeader := { configHeader.zero with ServiceName := serviceName },
    toconfig := c, Modules := [], flag := flag, workerPlugins := [] }

/-! ## String functions of the standard library used by the next methods -/

/-- The function `strings.HasPrefix`:
`len(s) >= len(prefix) && s[:len(prefix)] == prefix`. -/
def HasPrefix (s p : GoString) : Bool :=
  Decidable.decide (p.length ≤ s.length) && Decidable.decide (s.take p.length = p)

/-- The function `strings.TrimPrefix`: `s[len(prefix):]` when `s` has the
prefix, `s` otherwise. -/
def TrimPrefix (s p : GoString) : GoString :=
  if HasPrefix s p then s.drop p.length else s

/-- The writes of `strings.Join` after the first element: the separator and
the element, for each remaining element in order. -/
def joinRest (sep : GoString) : List GoString → GoString
  | [] => []
  | e :: rest => sep ++ e ++ joinRest sep rest

/-- The function `strings.Join`. -/
def Join (elems : List GoString) (sep : GoString) : GoString :=
  match elems with
  | [] => []
  | [e] => e
  | e :: rest => e ++ joinRest sep rest

/-- The function `trimLeftByte` of package `strings`:
`for len(s) > 0 && s[0] == c { s = s[1:] }`. -/
def trimLeftByte : GoString → Char → GoString
  | [], _ => []
  | b :: rest, c => if b = c then trimLeftByte rest c else b :: rest

/-- The loop of `trimRightByte`:
`for len(s) > 0 && s[len(s)-1] == c { s = s[:len(s)-1] }`, on the current
length of `s`; the result is the final length. -/
def trimRightLength (s : GoString) (c : Char) : Nat → Nat
  | 0 => 0
  | n + 1 => if s.getD n c = c then trimRightLength s c n else n + 1

/-- The function `trimRightByte` of package `strings`. -/
def trimRightByte (s : GoString) (c : Char) : GoString :=
  s.take (trimRightLength s c s.length)

/-- The function `strings.Trim(s, cutset)` for a cutset of one ASCII byte `c`:
`trimLeftByte(trimRightByte(s, c), c)`. -/
def Trim (s : GoString) (c : Char) : GoString :=
  trimLeftByte (trimRightByte s c) c

/-- The method `flagParameter.getFullModuleChildDir`. -/
def getFullModuleChildDir (f : flagParameter) (paths : List GoString) : GoString :=
  let paths := [f.moduleName] ++ paths
  TrimPrefix (f.outputFlag ++ f.serviceName ++ "/internal/modules/".toList ++ Join paths "/".toList)
    "/".toList

/-! ## Writing a file node -/

/-- A regular file of the file system state: its bytes and its permission
bits. -/
structure FileEntry where
  data : GoString
  mode : Nat
  deriving DecidableEq, Repr

/-- The file system state: the file found at each path, if any. -/
abbrev FileSystem := GoString → Option FileEntry

/-- The function `os.WriteFile(name, data, perm)`, from its documentation: if
the file does not exist it is created with permissions `perm` before umask
(the bits of `umask`, at most `0o777`, are cleared); otherwise it is truncated
before writing, without changing permissions.  Whether the operating system
lets the call succeed is the input `failure` (`none` for success); the state
left by a failed call is not described. -/
def WriteFile (umask : Nat) (failure : error) (fs : FileSystem) (name data : GoString)
    (perm : Nat) : Except GoError FileSystem :=
  match failure with
  | some e => Except.error e
  | none =>
    Except.ok (fun path =>
      if path = name then
        some { data := data,
               mode := match fs name with
                 | some old => old.mode
                 | none => perm &&& (0o777 ^^^ umask) }
      else fs path)

/-- The method `FileStructure.writeFile`: the line printed to standard output
and the result of the write. -/
def writeFile {D : Type} (loadTemplate : GoString → TemplateData D → GoString)
    (umask : Nat) (failure : error) (fs : FileSystem) (f : FileStructure D)
    (targetPath : GoString) : GoString × Except GoError FileSystem :=
  ("creating ".toList ++ (targetPath ++ "/".toList ++ f.FileName) ++ "...\n".toList,
   WriteFile umask failure fs (targetPath ++ "/".toList ++ f.FileName)
     (parseTemplate loadTemplate f) 0o644)

/-- A file system state with one file. -/
def FileSystem.single (path : GoString) (entry : FileEntry) : FileSystem :=
  fun p => if p = path then some entry else none

/-! ## REST server options (`rest_server/option.go`) -/

/-- The type `option` of package `restserver`.  The function and foreign types
of its fields are parameters; a nil function or pointer is `none`. -/
structure restserver.option (Middleware Handler RouterFunc Listener GraphQLOption TLSConfig : Type)
    where
  traceMiddleware : Option Middleware
  rootMiddlewares : List Middleware
  rootHandler : Option Handler
  routerFuncs : List RouterFunc
  errorHandler : Option Handler
  httpPort : Nat
  rootPath : GoString
  debugMode : Bool
  includeGraphQL : Bool
  jaegerMaxPacketSize : Int
  sharedListener : Option Listener
  graphqlOption : GraphQLOption
  tlsConfig : Option TLSConfig

/-- The option function `SetRootPath`: the update it applies to an option. -/
def restserver.SetRootPath {M H R L G T : Type} (rootPath : GoString)
    (o : restserver.option M H R L G T) : restserver.option M H R L G T :=
  let rootPath :=
    if !HasPrefix rootPath "/".toList then "/".toList ++ Trim rootPath '/' else rootPath
  { o with rootPath := rootPath }

/-- The option function `SetRootMiddlewares`. -/
def restserver.SetRootMiddlewares {M H R L G T : Type} (middlewares : List M)
    (o : restserver.option M H R L G T) : restserver.option M H R L G T :=
  { o with rootMiddlewares := middlewares }

/-- The option function `AddRootMiddlewares`. -/
def restserver.AddRootMiddlewares {M H R L G T : Type} (middlewares : List M)
    (o : restserver.option M H R L G T) : restserver.option M H R L G T :=
  { o with rootMiddlewares := o.rootMiddlewares ++ middlewares }

/-- An option over natural numbers as middlewares, with the given root
middlewares and root path and zero values elsewhere. -/
def restserver.option.sample (middlewares : List Nat) (rootPath : GoString) :
    restserver.option Nat Unit Unit Unit Unit Unit :=
  { traceMiddleware := none, rootMiddlewares := middlewares, rootHandler := none,
    routerFuncs := [], errorHandler := none, httpPort := 0, rootPath := rootPath,
    debugMode := false, includeGraphQL := false, jaegerMaxPacketSize := 0,
    sharedListener := none, graphqlOption := (), tlsConfig := none }

/-- The file found at `path` after a write, `none` when the write failed or
no file is there. -/
def fileAfter (result : Except GoError FileSystem) (path : GoString) : Option FileEntry :=
  match result with
  | Except.ok fs => fs path
  | Except.error _ => none

/-- A literal file node (`FromTemplate = false`) with the given file name and
source, and zero values elsewhere. -/
def FileStructure.literal (fileName source : GoString) : FileStructure Unit :=
  { TargetDir := [], IsDir := false, FromTemplate := false, DataSource := (),
    Source := source, FileName := fileName, Skip := false, SkipAll := false,
    SkipIfExist := false, Childs := [] }

/-! ## Predicates of the statements -/

/-- The stored field `IsWorkerActive` is up to date: it equals the OR of the
six worker flags and the non-emptiness of `WorkerPlugins`. -/
def workerActiveFresh (c : config) : Prop :=
  c.IsWorkerActive =
    (c.KafkaHandler || c.SchedulerHandler || c.RedisSubsHandler || c.TaskQueueHandler ||
      c.PostgresListenerHandler || c.RabbitMQHandler || !c.WorkerPlugins.isEmpty)

/-- The number of worker flags that are set in a module configuration. -/
def workerFlagCount (m : moduleConfig) : Nat :=
  m.KafkaHandler.toNat + m.SchedulerHandler.toNat + m.RedisSubsHandler.toNat +
    m.TaskQueueHandler.toNat + m.PostgresListenerHandler.toNat + m.RabbitMQHandler.toNat

/-- The text `s` with all leading and all trailing `/` removed, written
directly from these words. -/
def trimSlashes (s : GoString) : GoString :=
  ((s.dropWhile (fun b => b == '/')).reverse.dropWhile (fun b => b == '/')).reverse

/-! ## Theorems -/

/-- C1: `checkWorkerActive` returns true exactly when one of the six worker
flags is set or `WorkerPlugins` is non-empty, false in every other case, and
the returned value is the one stored in `IsWorkerActive` (no other field of
the configuration changes). -/
theorem checkWorkerActive_spec (c : config) :
    ((checkWorkerActive c).1 = true ↔
      (c.KafkaHandler = true ∨ c.SchedulerHandler = true ∨ c.RedisSubsHandler = true ∨
        c.TaskQueueHandler = true ∨ c.PostgresListenerHandler = true ∨
        c.RabbitMQHandler = true ∨ c.WorkerPlugins ≠ [])) ∧
    ((checkWorkerActive c).1 = false ↔
      ¬ (c.KafkaHandler = true ∨ c.SchedulerHandler = true ∨ c.RedisSubsHandler = true ∨
        c.TaskQueueHandler = true ∨ c.PostgresListenerHandler = true ∨
        c.RabbitMQHandler = true ∨ c.WorkerPlugins ≠ [])) ∧
    (checkWorkerActive c).2.IsWorkerActive = (checkWorkerActive c).1 ∧
    (checkWorkerActive c).2 = { c with IsWorkerActive := (checkWorkerActive c).1 } := by
  have hlen : (0 < c.WorkerPlugins.length) ↔ c.WorkerPlugins ≠ [] := List.length_pos
  refine ⟨?_, ?_, rfl, rfl⟩
  · simp only [checkWorkerActive, Bool.or_eq_true, decide_eq_true_eq, gt_iff_lt, hlen]
    tauto
  · rw [← Bool.not_eq_true]
    simp only [checkWorkerActive, Bool.or_eq_true, decide_eq_true_eq, gt_iff_lt, hlen]
    tauto

/-- C2 (as stated, refuted): a service configuration with a non-empty
`WorkerPlugins` list is still reported active after `disableAllHandler`. -/
theorem disableAllHandler_then_check_counterexample :
    (serviceConfig.checkWorkerActive (disableAllHandler
      (serviceConfig.ofParts { config.zero with WorkerPlugins := ["p".toList] } [] none))).1
      = true ∧
    (serviceConfig.checkWorkerActive (disableAllHandler
      (serviceConfig.ofParts { config.zero with WorkerPlugins := ["p".toList] } [] none))).2.IsWorkerActive
      = true := by
  decide

/-- C2 (amended): for every service configuration whose `WorkerPlugins` list
is empty, whatever the rest of its prior state, `disableAllHandler` followed
by `checkWorkerActive` returns false and leaves `IsWorkerActive` false. -/
theorem disableAllHandler_then_check_inactive {Plugin : Type} (s : serviceConfig Plugin)
    (h : s.WorkerPlugins = []) :
    (serviceConfig.checkWorkerActive (disableAllHandler s)).1 = false ∧
    (serviceConfig.checkWorkerActive (disableAllHandler s)).2.IsWorkerActive = false := by
  simp [serviceConfig.checkWorkerActive, checkWorkerActive, disableAllHandler, h]

/-- Witness for C2 (amended): a configuration with every handler and worker
flag set and no plugin. -/
theorem disableAllHandler_then_check_inactive_witness :
    (serviceConfig.checkWorkerActive (disableAllHandler
      (serviceConfig.ofParts
        { config.zero with RestHandler := true, KafkaHandler := true, IsWorkerActive := true }
        [] none))).1 = false ∧
    (serviceConfig.checkWorkerActive (disableAllHandler
      (serviceConfig.ofParts
        { config.zero with RestHandler := true, KafkaHandler := true, IsWorkerActive := true }
        [] none))).2.IsWorkerActive = false :=
  disableAllHandler_then_check_inactive _ rfl

/-- C3 (as stated, refuted): `FiberRestHandler` is still set after
`disableAllHandler`. -/
theorem disableAllHandler_fiber_counterexample :
    (disableAllHandler
      (serviceConfig.ofParts { config.zero with FiberRestHandler := true } [] none)).FiberRestHandler
      = true := by
  decide

/-- C3 (amended): after `disableAllHandler` the delivery flags `RestHandler`,
`GRPCHandler`, `GraphQLHandler` and the six worker flags are false, and
`FiberRestHandler` keeps the value it had. -/
theorem disableAllHandler_flags {Plugin : Type} (s : serviceConfig Plugin) :
    (disableAllHandler s).RestHandler = false ∧
    (disableAllHandler s).GRPCHandler = false ∧
    (disableAllHandler s).GraphQLHandler = false ∧
    (disableAllHandler s).KafkaHandler = false ∧
    (disableAllHandler s).SchedulerHandler = false ∧
    (disableAllHandler s).RedisSubsHandler = false ∧
    (disableAllHandler s).TaskQueueHandler = false ∧
    (disableAllHandler s).PostgresListenerHandler = false ∧
    (disableAllHandler s).RabbitMQHandler = false ∧
    (disableAllHandler s).FiberRestHandler = s.FiberRestHandler :=
  ⟨rfl, rfl, rfl, rfl, rfl, rfl, rfl, rfl, rfl, rfl⟩

/-- C4: `constructModuleWorkerActivation` returns the identifiers of the
worker types whose flag is set, in the canonical order Kafka, Scheduler,
RedisSubscriber, TaskQueue, PostgresListener, RabbitMQ: it is the canonical
sequence filtered by the flags, hence a sublist of it, and two module
configurations that agree on the six flags give the same list. -/
theorem constructModuleWorkerActivation_spec (m : moduleConfig) :
    constructModuleWorkerActivation m =
      List.map Prod.snd (List.filter Prod.fst
        [(m.KafkaHandler, "types.Kafka".toList),
         (m.SchedulerHandler, "types.Scheduler".toList),
         (m.RedisSubsHandler, "types.RedisSubscriber".toList),
         (m.TaskQueueHandler, "types.TaskQueue".toList),
         (m.PostgresListenerHandler, "types.PostgresListener".toList),
         (m.RabbitMQHandler, "types.RabbitMQ".toList)]) ∧
    List.Sublist (constructModuleWorkerActivation m)
      ["types.Kafka".toList, "types.Scheduler".toList, "types.RedisSubscriber".toList,
       "types.TaskQueue".toList, "types.PostgresListener".toList, "types.RabbitMQ".toList] ∧
    (∀ m2 : moduleConfig,
      m2.KafkaHandler = m.KafkaHandler → m2.SchedulerHandler = m.SchedulerHandler →
      m2.RedisSubsHandler = m.RedisSubsHandler → m2.TaskQueueHandler = m.TaskQueueHandler →
      m2.PostgresListenerHandler = m.PostgresListenerHandler →
      m2.RabbitMQHandler = m.RabbitMQHandler →
      constructModuleWorkerActivation m2 = constructModuleWorkerActivation m) := by
  have key : constructModuleWorkerActivation m =
      List.map Prod.snd (List.filter Prod.fst
        [(m.KafkaHandler, "types.Kafka".toList),
         (m.SchedulerHandler, "types.Scheduler".toList),
         (m.RedisSubsHandler, "types.RedisSubscriber".toList),
         (m.TaskQueueHandler, "types.TaskQueue".toList),
         (m.PostgresListenerHandler, "types.PostgresListener".toList),
         (m.RabbitMQHandler, "types.RabbitMQ".toList)]) := by
    unfold constructModuleWorkerActivation
    cases m.KafkaHandler <;> cases m.SchedulerHandler <;> cases m.RedisSubsHandler <;>
      cases m.TaskQueueHandler <;> cases m.PostgresListenerHandler <;>
      cases m.RabbitMQHandler <;> rfl
  refine ⟨key, ?_, ?_⟩
  · rw [key]
    exact List.Sublist.map Prod.snd (List.filter_sublist _)
  · intro m2 h1 h2 h3 h4 h5 h6
    unfold constructModuleWorkerActivation
    rw [h1, h2, h3, h4, h5, h6]

/-- Witness for C4: two module configurations with different names and
delivery flags but the same worker flags (Kafka and TaskQueue). -/
theorem constructModuleWorkerActivation_spec_witness :
    constructModuleWorkerActivation
        { moduleConfig.zero with KafkaHandler := true, TaskQueueHandler := true }
      = ["types.Kafka".toList, "types.TaskQueue".toList] ∧
    constructModuleWorkerActivation
        { moduleConfig.zero with
            KafkaHandler := true, TaskQueueHandler := true, RestHandler := true,
            ModuleName := "billing".toList }
      = constructModuleWorkerActivation
        { moduleConfig.zero with KafkaHandler := true, TaskQueueHandler := true } :=
  ⟨by decide,
   (constructModuleWorkerActivation_spec
      { moduleConfig.zero with KafkaHandler := true, TaskQueueHandler := true }).2.2
      _ rfl rfl rfl rfl rfl rfl⟩

/-- C5 (as stated, refuted): outside monorepo and init-service mode, with
output directory `out/`, `getRootDir` returns the empty string and not the
output directory. -/
theorem getRootDir_other_counterexample :
    getRootDir (serviceConfig.ofParts config.zero "svc".toList
        (some { flagParameter.zero with outputFlag := "out/".toList })) = some [] ∧
    getRootDir (serviceConfig.ofParts config.zero "svc".toList
        (some { flagParameter.zero with outputFlag := "out/".toList }))
      ≠ some "out/".toList := by
  decide

/-- C5 (amended): for a service configuration with a non-nil flag that is
neither in monorepo mode nor in init-service mode, `getRootDir` returns the
empty string, whatever the configured output directory is. -/
theorem getRootDir_other {Plugin : Type} (s : serviceConfig Plugin) (flag : flagParameter)
    (hflag : s.flag = some flag) (hmono : s.IsMonorepo = false)
    (hinit : flag.initService = false) :
    getRootDir s = some [] := by
  simp [getRootDir, hflag, hmono, hinit]

/-- Witness for C5 (amended). -/
theorem getRootDir_other_witness :
    getRootDir (serviceConfig.ofParts config.zero "svc".toList
        (some { flagParameter.zero with outputFlag := "generated/".toList })) = some [] :=
  getRootDir_other _ { flagParameter.zero with outputFlag := "generated/".toList } rfl rfl rfl

/-- C6 (as stated, refuted): in monorepo mode with output directory `out`
and service name `svc`, `getRootDir` returns `outsvc/`, not `out/svc/`. -/
theorem getRootDir_mono_counterexample :
    getRootDir (serviceConfig.ofParts { config.zero with IsMonorepo := true } "svc".toList
        (some { flagParameter.zero with outputFlag := "out".toList }))
      = some "outsvc/".toList ∧
    getRootDir (serviceConfig.ofParts { config.zero with IsMonorepo := true } "svc".toList
        (some { flagParameter.zero with outputFlag := "out".toList }))
      ≠ some ("out".toList ++ "/".toList ++ "svc".toList ++ "/".toList) := by
  decide

/-- C6 (amended): for a service configuration with a non-nil flag in monorepo
mode or init-service mode, `getRootDir` returns the output directory followed
directly by the service name and a trailing `/` (no separator is inserted);
this is `dir/serviceName/` when the output directory is `dir/`, as it is
after `parseMonorepoFlag`, which sets it to `services/`. -/
theorem getRootDir_mono {Plugin : Type} (s : serviceConfig Plugin) (flag : flagParameter)
    (hflag : s.flag = some flag) (hmode : s.IsMonorepo = true ∨ flag.initService = true) :
    getRootDir s = some (flag.outputFlag ++ s.ServiceName ++ "/".toList) ∧
    (∀ dir : GoString, flag.outputFlag = dir ++ "/".toList →
      getRootDir s = some (dir ++ "/".toList ++ s.ServiceName ++ "/".toList)) ∧
    getRootDir { s with flag := some (parseMonorepoFlag flag).1 }
      = some ("services".toList ++ "/".toList ++ s.ServiceName ++ "/".toList) := by
  have hinit : (parseMonorepoFlag flag).1.initService = flag.initService := by
    unfold parseMonorepoFlag
    dsimp only
    split <;> rfl
  have hout : (parseMonorepoFlag flag).1.outputFlag = "services/".toList := by
    unfold parseMonorepoFlag
    dsimp only
    split <;> rfl
  have h1 : getRootDir s = some (flag.outputFlag ++ s.ServiceName ++ "/".toList) := by
    rcases hmode with h | h <;> simp [getRootDir, hflag, h]
  refine ⟨h1, ?_, ?_⟩
  · intro dir hdir
    rw [h1, hdir]
  · rcases hmode with h | h
    · simp [getRootDir, h, hout]
    · simp [getRootDir, hinit, h, hout]

/-- Witness for C6 (amended): init-service mode with output directory
`services/` and service name `billing`. -/
theorem getRootDir_mono_witness :
    getRootDir (serviceConfig.ofParts config.zero "billing".toList
        (some { flagParameter.zero with outputFlag := "services/".toList, initService := true }))
      = some "services/billing/".toList :=
  (getRootDir_mono _
    { flagParameter.zero with outputFlag := "services/".toList, initService := true }
    rfl (Or.inr rfl)).1

/-- C10: with the result of `os.Stat` taken as the input `stat`:
`validateServiceName` always returns to its caller, and the error it returns
is non-nil exactly when the directory `outputFlag + serviceName` does not
exist (`os.IsNotExist` holds of the stat error); `validateModuleName` ends the
process with exit status 1 exactly when the directory
`outputFlag + serviceName + "/internal/modules/" + moduleName` does not exist,
and returns to its caller (handing back the stat error) exactly when it does
not end the process. -/
theorem validate_service_and_module (stat : GoString → error) (f : flagParameter)
    (moduleName : GoString) :
    (∃ e : error, validateServiceName stat f = Outcome.returned e ∧
      (e ≠ none ↔ IsNotExist (stat (f.outputFlag ++ f.serviceName)) = true)) ∧
    (∀ code printed, validateServiceName stat f ≠ Outcome.exited code printed) ∧
    ((∃ printed, validateModuleName stat f moduleName = Outcome.exited 1 printed) ↔
      IsNotExist (stat (f.outputFlag ++ f.serviceName ++ "/internal/modules/".toList
        ++ moduleName)) = true) ∧
    ((∃ code printed, validateModuleName stat f moduleName = Outcome.exited code printed) ↔
      IsNotExist (stat (f.outputFlag ++ f.serviceName ++ "/internal/modules/".toList
        ++ moduleName)) = true) ∧
    ((validateModuleName stat f moduleName
        = Outcome.returned (stat (f.outputFlag ++ f.serviceName
            ++ "/internal/modules/".toList ++ moduleName))) ↔
      IsNotExist (stat (f.outputFlag ++ f.serviceName ++ "/internal/modules/".toList
        ++ moduleName)) = false) := by
  unfold validateServiceName validateModuleName
  dsimp only
  generalize stat (f.outputFlag ++ f.serviceName) = e1
  generalize stat (f.outputFlag ++ f.serviceName ++ "/internal/modules/".toList
    ++ moduleName) = e2
  cases h1 : IsNotExist e1 <;> cases h2 : IsNotExist e2 <;> simp

/-- The bytes deleted by `modulePathReplacer` are `*`, `/` and `:`; every
other byte is copied. -/
theorem modulePathReplacer_eq_filter (s : GoString) :
    modulePathReplacer s = s.filter (fun c => c != '*' && c != '/' && c != ':') := by
  induction s with
  | nil => rfl
  | cons b rest ih =>
    unfold modulePathReplacer at ih ⊢
    unfold Replace
    rw [ih]
    by_cases h1 : b = '*'
    · subst h1; rfl
    by_cases h2 : b = '/'
    · subst h2; rfl
    by_cases h3 : b = ':'
    · subst h3; rfl
    have e1 : ¬ ['*'] = [b] := fun h => h1 (List.cons.inj h).1.symm
    have e2 : ¬ ['/'] = [b] := fun h => h2 (List.cons.inj h).1.symm
    have e3 : ¬ [':'] = [b] := fun h => h3 (List.cons.inj h).1.symm
    simp [specialChar, oldnewPairs, replacementOf, e1, e2, e3, h1, h2, h3]

/-- The bytes deleted by `cleanSpecialChar` are `*`, `/`, `:` and `-`; every
other byte is copied. -/
theorem cleanSpecialChar_eq_filter (s : GoString) :
    cleanSpecialChar s
      = s.filter (fun c => c != '*' && c != '/' && c != ':' && c != '-') := by
  induction s with
  | nil => rfl
  | cons b rest ih =>
    unfold cleanSpecialChar at ih ⊢
    unfold Replace
    rw [ih]
    by_cases h1 : b = '*'
    · subst h1; rfl
    by_cases h2 : b = '/'
    · subst h2; rfl
    by_cases h3 : b = ':'
    · subst h3; rfl
    by_cases h4 : b = '-'
    · subst h4; rfl
    have e1 : ¬ ['*'] = [b] := fun h => h1 (List.cons.inj h).1.symm
    have e2 : ¬ ['/'] = [b] := fun h => h2 (List.cons.inj h).1.symm
    have e3 : ¬ [':'] = [b] := fun h => h3 (List.cons.inj h).1.symm
    have e4 : ¬ ['-'] = [b] := fun h => h4 (List.cons.inj h).1.symm
    simp [specialChar, oldnewPairs, replacementOf, e1, e2, e3, e4, h1, h2, h3, h4]

/-- Deleting `*`, `/` and `:` does not change the number of `-`. -/
theorem count_hyphen_filter (s : GoString) :
    (s.filter (fun c => c != '*' && c != '/' && c != ':')).count '-' = s.count '-' := by
  induction s with
  | nil => rfl
  | cons b rest ih =>
    rw [List.filter_cons]
    by_cases hb : b = '-'
    · subst hb
      rw [if_pos (by decide), List.count_cons_self, List.count_cons_self, ih]
    · by_cases hk : (b != '*' && b != '/' && b != ':') = true
      · rw [if_pos hk, List.count_cons_of_ne (Ne.symm hb),
          List.count_cons_of_ne (Ne.symm hb), ih]
      · rw [if_neg hk, List.count_cons_of_ne (Ne.symm hb), ih]

/-- C8 (as stated, refuted): both cleaning functions keep the space of
`a b`. -/
theorem clean_space_counterexample :
    modulePathReplacer "a b".toList = "a b".toList ∧
    cleanSpecialChar "a b".toList = "a b".toList ∧
    ' ' ∈ modulePathReplacer "a b".toList ∧ ' ' ∈ cleanSpecialChar "a b".toList := by
  decide

/-- C8 (amended): the output of each cleaning function contains none of the
reserved characters `*`, `/` and `:`; every other character of the input (the
space included), except `-` in the `cleanSpecialChar` variant, is kept in its
original order: each output is the input filtered by that character test. -/
theorem clean_reserved_characters (s : GoString) :
    modulePathReplacer s = s.filter (fun c => c != '*' && c != '/' && c != ':') ∧
    cleanSpecialChar s = s.filter (fun c => c != '*' && c != '/' && c != ':' && c != '-') ∧
    ('*' ∉ modulePathReplacer s ∧ '/' ∉ modulePathReplacer s ∧ ':' ∉ modulePathReplacer s) ∧
    ('*' ∉ cleanSpecialChar s ∧ '/' ∉ cleanSpecialChar s ∧ ':' ∉ cleanSpecialChar s) := by
  refine ⟨modulePathReplacer_eq_filter s, cleanSpecialChar_eq_filter s, ?_, ?_⟩
  · rw [modulePathReplacer_eq_filter]
    simp [List.mem_filter]
  · rw [cleanSpecialChar_eq_filter]
    simp [List.mem_filter]

/-- C9: the two cleaning functions differ exactly in the hyphen:
`modulePathReplacer` keeps every `-` of its input (as many occurrences in the
output as in the input), the output of `cleanSpecialChar` contains no `-`,
`cleanSpecialChar s` is `modulePathReplacer s` with every `-` deleted, and the
two agree on every input without `-`. -/
theorem clean_variants_differ_in_hyphen (s : GoString) :
    (modulePathReplacer s).count '-' = s.count '-' ∧
    '-' ∉ cleanSpecialChar s ∧
    cleanSpecialChar s = (modulePathReplacer s).filter (fun c => c != '-') ∧
    ('-' ∉ s → cleanSpecialChar s = modulePathReplacer s) := by
  have hfilter : cleanSpecialChar s = (modulePathReplacer s).filter (fun c => c != '-') := by
    rw [cleanSpecialChar_eq_filter, modulePathReplacer_eq_filter, List.filter_filter]
    congr 1
    funext c
    simp only [Bool.and_comm, Bool.and_assoc, Bool.and_left_comm]
  refine ⟨?_, ?_, hfilter, ?_⟩
  · rw [modulePathReplacer_eq_filter]
    exact count_hyphen_filter s
  · rw [cleanSpecialChar_eq_filter]
    simp [List.mem_filter]
  · intro hs
    rw [hfilter]
    apply List.filter_eq_self.mpr
    intro c hc
    have hcs : c ∈ s := by
      rw [modulePathReplacer_eq_filter] at hc
      exact (List.mem_filter.mp hc).1
    have : c ≠ '-' := fun h => hs (h ▸ hcs)
    simpa using this

/-- Witness for C9: on `billing svc`, which has no `-`, the two functions
agree, and on `user-profile/v1` they differ only in the hyphen. -/
theorem clean_variants_differ_in_hyphen_witness :
    cleanSpecialChar "billing svc".toList = modulePathReplacer "billing svc".toList ∧
    modulePathReplacer "user-profile/v1".toList = "user-profilev1".toList ∧
    cleanSpecialChar "user-profile/v1".toList = "userprofilev1".toList :=
  ⟨(clean_variants_differ_in_hyphen "billing svc".toList).2.2.2 (by decide),
   by decide, by decide⟩

/-! ### `filepath.Clean`, `filepath.Dir` and the default package stub -/

/-- The loop of `filepath.Clean` stops on an empty input. -/
theorem cleanLoop_nil (rooted : Bool) (fuel : Nat) (out : GoString) (dd : Nat) :
    cleanLoop rooted fuel [] out dd = out := by
  cases fuel <;> rfl

/-- One iteration on a separator: the empty path element is skipped. -/
theorem cleanLoop_sep (rooted : Bool) (fuel : Nat) (rest out : GoString) (dd : Nat) :
    cleanLoop rooted (fuel + 1) ('/' :: rest) out dd = cleanLoop rooted fuel rest out dd := by
  rw [cleanLoop, if_pos rfl]

/-- Two iterations on `./`: the `.` element is skipped. -/
theorem cleanLoop_dot (rooted : Bool) (fuel : Nat) (rest out : GoString) (dd : Nat) :
    cleanLoop rooted (fuel + 2) ('.' :: '/' :: rest) out dd = cleanLoop rooted fuel rest out dd := by
  rw [cleanLoop, if_neg (by decide), if_pos ⟨rfl, Or.inr rfl⟩, cleanLoop_sep]

/-- Reading an element up to the next separator. -/
theorem takeWhile_element (elem rest : GoString) (h : '/' ∉ elem) :
    (elem ++ '/' :: rest).takeWhile (fun b => b != '/') = elem ∧
    (elem ++ '/' :: rest).dropWhile (fun b => b != '/') = '/' :: rest := by
  induction elem with
  | nil => simp
  | cons c elem ih =>
    have hc : c ≠ '/' := fun e => h (e ▸ List.mem_cons_self _ _)
    have h2 : '/' ∉ elem := fun e => h (List.mem_cons_of_mem _ e)
    have hp : (c != '/') = true := by simpa using hc
    simp only [List.cons_append, List.takeWhile_cons, List.dropWhile_cons, hp, if_true,
      (ih h2).1, (ih h2).2, and_self]

/-- Two iterations on a plain element followed by a separator: the element
is appended to the output, after a separator when the output needs one. -/
theorem cleanLoop_plain (rooted : Bool) (fuel : Nat) (name rest out : GoString) (dd : Nat)
    (hname : plainElement name) :
    cleanLoop rooted (fuel + 2) (name ++ '/' :: rest) out dd =
      cleanLoop rooted fuel rest
        ((if (rooted = true ∧ out.length ≠ 1) ∨ (rooted = false ∧ out.length ≠ 0) then
            out ++ ['/'] else out) ++ name) dd := by
  obtain ⟨hne, hsep, hdot, hdotdot⟩ := hname
  have htd := takeWhile_element name rest hsep
  cases name with
  | nil => exact absurd rfl hne
  | cons c tl =>
    have hc : c ≠ '/' := fun e => hsep (e ▸ List.mem_cons_self _ _)
    have htl : '/' ∉ tl := fun e => hsep (List.mem_cons_of_mem _ e)
    have h2 : ¬ (c = '.' ∧ (tl ++ '/' :: rest = [] ∨ (tl ++ '/' :: rest).head? = some '/')) := by
      rintro ⟨rfl, h | h⟩
      · simp at h
      · cases tl with
        | nil => exact hdot rfl
        | cons d tl2 =>
          simp at h
          exact htl (h ▸ List.mem_cons_self _ _)
    have h3 : ¬ (c = '.' ∧ (tl ++ '/' :: rest).head? = some '.' ∧
        ((tl ++ '/' :: rest).tail = [] ∨ (tl ++ '/' :: rest).tail.head? = some '/')) := by
      rintro ⟨rfl, hh, h⟩
      cases tl with
      | nil => simp at hh
      | cons d tl2 =>
        simp at hh
        subst hh
        cases tl2 with
        | nil => exact hdotdot rfl
        | cons e tl3 =>
          simp at h
          exact htl (List.mem_cons_of_mem _ (h ▸ List.mem_cons_self _ _))
    rw [List.cons_append, cleanLoop, if_neg hc, if_neg h2, if_neg h3]
    rw [List.cons_append] at htd
    simp only [htd.1, htd.2]
    rw [cleanLoop_sep]

/-- Backtracking never goes below `dotdot`. -/
theorem backtrackTo_ge (buf : GoString) (dd : Nat) : ∀ w, dd ≤ w → dd ≤ backtrackTo buf dd w := by
  intro w
  induction w with
  | zero => intro h; simpa [backtrackTo] using h
  | succ w ih =>
    intro h
    rw [backtrackTo]
    split
    · rename_i hc
      exact ih (Nat.lt_succ_iff.mp hc.1)
    · exact h

/-- Truncating a buffer to a positive length keeps its first byte. -/
theorem head_take_of_pos (out : GoString) (k : Nat) (hk : 1 ≤ k) (h : out.head? = some '/') :
    (out.take k).head? = some '/' := by
  cases out with
  | nil => simp at h
  | cons c tl =>
    obtain ⟨k, rfl⟩ : ∃ j, k = j + 1 := ⟨k - 1, by omega⟩
    simpa using h

/-- The loop of `filepath.Clean` reads one element and its separator, with
enough iterations left for the rest, and keeps the leading separator of a
rooted output. -/
theorem cleanLoop_element (rooted : Bool) (elem rest out : GoString) (dd fuel : Nat)
    (helem : '/' ∉ elem) (hfuel : (elem ++ '/' :: rest).length < fuel)
    (hinv : rooted = true → 1 ≤ dd ∧ out.head? = some '/') :
    ∃ fuel2 out2 dd2, rest.length < fuel2 ∧
      (rooted = true → 1 ≤ dd2 ∧ out2.head? = some '/') ∧
      cleanLoop rooted fuel (elem ++ '/' :: rest) out dd = cleanLoop rooted fuel2 rest out2 dd2 := by
  by_cases hplain : plainElement elem
  · obtain ⟨f, rfl⟩ : ∃ f, fuel = f + 2 := by
      have : 1 ≤ elem.length := List.length_pos.mpr hplain.1
      simp at hfuel
      exact ⟨fuel - 2, by omega⟩
    refine ⟨f, _, dd, ?_, ?_, cleanLoop_plain rooted f elem rest out dd hplain⟩
    · have : 1 ≤ elem.length := List.length_pos.mpr hplain.1
      simp at hfuel; omega
    · intro hr
      refine ⟨(hinv hr).1, ?_⟩
      have ho := (hinv hr).2
      cases out with
      | nil => simp at ho
      | cons c tl => split <;> simpa using ho
  · have hcases : elem = [] ∨ elem = ['.'] ∨ elem = ['.', '.'] := by
      by_contra hcon
      push_neg at hcon
      exact hplain ⟨hcon.1, helem, hcon.2.1, hcon.2.2⟩
    rcases hcases with rfl | rfl | rfl
    · obtain ⟨f, rfl⟩ : ∃ f, fuel = f + 1 := ⟨fuel - 1, by simp at hfuel; omega⟩
      exact ⟨f, out, dd, by simp at hfuel; omega, hinv, cleanLoop_sep rooted f rest out dd⟩
    · obtain ⟨f, rfl⟩ : ∃ f, fuel = f + 2 := ⟨fuel - 2, by simp at hfuel; omega⟩
      exact ⟨f, out, dd, by simp at hfuel; omega, hinv, cleanLoop_dot rooted f rest out dd⟩
    · obtain ⟨f, rfl⟩ : ∃ f, fuel = f + 2 := ⟨fuel - 2, by simp at hfuel; omega⟩
      have hf : rest.length < f := by simp at hfuel; omega
      have hstep : cleanLoop rooted (f + 2) (['.', '.'] ++ '/' :: rest) out dd =
          if dd < out.length then
            cleanLoop rooted f rest (out.take (backtrackTo out dd (out.length - 1))) dd
          else if rooted = false then
            cleanLoop rooted f rest
              ((if 0 < out.length then out ++ ['/'] else out) ++ ['.', '.'])
              ((if 0 < out.length then out ++ ['/'] else out) ++ ['.', '.']).length
          else cleanLoop rooted f rest out dd := by
        show cleanLoop rooted (f + 2) ('.' :: '.' :: '/' :: rest) out dd = _
        rw [cleanLoop, if_neg (by decide), if_neg (by simp), if_pos ⟨rfl, rfl, Or.inr rfl⟩]
        simp only [List.tail_cons, cleanLoop_sep]
      rw [hstep]
      by_cases h1 : dd < out.length
      · rw [if_pos h1]
        refine ⟨f, _, dd, hf, ?_, rfl⟩
        intro hr
        refine ⟨(hinv hr).1, head_take_of_pos _ _ ?_ (hinv hr).2⟩
        exact le_trans (hinv hr).1 (backtrackTo_ge out dd _ (by omega))
      · rw [if_neg h1]
        by_cases h2 : rooted = false
        · rw [if_pos h2]
          refine ⟨f, _, _, hf, ?_, rfl⟩
          intro hr
          rw [h2] at hr
          exact absurd hr (by decide)
        · rw [if_neg h2]
          exact ⟨f, out, dd, hf, hinv, rfl⟩

/-- A path ending in a separator starts with an element and a separator. -/
theorem split_first_element : ∀ (q : GoString), q.getLast? = some '/' →
    ∃ elem rest, '/' ∉ elem ∧ q = elem ++ '/' :: rest ∧ (rest = [] ∨ rest.getLast? = some '/') := by
  intro q
  induction q with
  | nil => intro h; simp at h
  | cons c tl ih =>
    intro h
    by_cases hc : c = '/'
    · subst hc
      refine ⟨[], tl, by simp, rfl, ?_⟩
      cases tl with
      | nil => exact Or.inl rfl
      | cons d tl2 => exact Or.inr (by simpa [List.getLast?_cons_cons] using h)
    · cases tl with
      | nil => simp at h; exact absurd h hc
      | cons d tl2 =>
        rw [List.getLast?_cons_cons] at h
        obtain ⟨elem, rest, h1, h2, h3⟩ := ih h
        refine ⟨c :: elem, rest, ?_, by rw [h2]; rfl, h3⟩
        intro hm
        rcases List.mem_cons.mp hm with e | e
        · exact hc e.symm
        · exact h1 e

/-- The loop of `filepath.Clean` reads a prefix that ends in a separator and
goes on with the rest of the path. -/
theorem cleanLoop_skip (rooted : Bool) :
    ∀ (n : Nat) (q : GoString), q.length ≤ n → (q = [] ∨ q.getLast? = some '/') →
    ∀ (fuel : Nat) (t out : GoString) (dd : Nat), (q ++ t).length < fuel →
      (rooted = true → 1 ≤ dd ∧ out.head? = some '/') →
      ∃ fuel2 out2 dd2, t.length < fuel2 ∧
        (rooted = true → 1 ≤ dd2 ∧ out2.head? = some '/') ∧
        cleanLoop rooted fuel (q ++ t) out dd = cleanLoop rooted fuel2 t out2 dd2 := by
  intro n
  induction n with
  | zero =>
    intro q hq _ fuel t out dd hfuel hinv
    have : q = [] := List.length_eq_zero.mp (Nat.le_zero.mp hq)
    subst this
    exact ⟨fuel, out, dd, by simpa using hfuel, hinv, rfl⟩
  | succ n ih =>
    intro q hq hlast fuel t out dd hfuel hinv
    rcases hlast with rfl | hlast
    · exact ⟨fuel, out, dd, by simpa using hfuel, hinv, rfl⟩
    · obtain ⟨elem, rest, h1, rfl, h3⟩ := split_first_element q hlast
      have hfuel2 : (elem ++ '/' :: (rest ++ t)).length < fuel := by
        simpa [List.append_assoc] using hfuel
      obtain ⟨f2, o2, d2, hf2, hi2, he2⟩ :=
        cleanLoop_element rooted elem (rest ++ t) out dd fuel h1 hfuel2 hinv
      have hlen : rest.length ≤ n := by simp at hq; omega
      obtain ⟨f3, o3, d3, hf3, hi3, he3⟩ := ih rest hlen h3 f2 t o2 d2 hf2 hi2
      refine ⟨f3, o3, d3, hf3, hi3, ?_⟩
      rw [List.append_assoc, List.cons_append, he2, he3]

/-- The backward scan finds nothing in a string without separator. -/
theorem LastIndexByteLoop_absent (s : GoString) (h : '/' ∉ s) :
    ∀ k, k ≤ s.length → LastIndexByteLoop s '/' k = -1 := by
  intro k
  induction k with
  | zero => intro _; rfl
  | succ k ih =>
    intro hk
    have hlt : k < s.length := hk
    have hne : s.getD k '/' ≠ '/' := by
      rw [List.getD_eq_getElem _ _ hlt]
      exact fun e => h (e ▸ List.getElem_mem _)
    rw [LastIndexByteLoop, if_neg hne]
    exact ih (Nat.le_of_lt hlt)

/-- The backward scan stops at the last separator. -/
theorem LastIndexByteLoop_last (a name : GoString) (h : '/' ∉ name) :
    ∀ k, k ≤ name.length →
      LastIndexByteLoop (a ++ '/' :: name) '/' (a.length + 1 + k) = (a.length : Int) := by
  intro k
  induction k with
  | zero =>
    intro _
    have : (a ++ '/' :: name).getD a.length '/' = '/' := by
      rw [List.getD_append_right _ _ _ _ (le_refl _)]
      simp
    rw [Nat.add_zero, LastIndexByteLoop, if_pos this]
  | succ k ih =>
    intro hk
    have hlt : k < name.length := hk
    have hne : (a ++ '/' :: name).getD (a.length + 1 + k) '/' ≠ '/' := by
      rw [List.getD_append_right _ _ _ _ (by omega)]
      have e : a.length + 1 + k - a.length = k + 1 := by omega
      rw [e, List.getD_cons_succ, List.getD_eq_getElem _ _ hlt]
      exact fun e => h (e ▸ List.getElem_mem _)
    rw [← Nat.add_assoc, LastIndexByteLoop, if_neg hne]
    exact ih (Nat.le_of_lt hlt)

/-- Slicing after the last separator gives the last element. -/
theorem drop_after_last_separator (a name : GoString) (ha : a = [] ∨ a.getLast? = some '/')
    (h : '/' ∉ name) :
    (a ++ name).drop (LastIndexByteString (a ++ name) '/' + 1).toNat = name := by
  rcases ha with rfl | ha
  · rw [List.nil_append, LastIndexByteString, LastIndexByteLoop_absent name h _ (le_refl _)]
    rfl
  · obtain ⟨a0, rfl⟩ := List.getLast?_eq_some_iff.mp ha
    have e : a0 ++ ['/'] ++ name = a0 ++ '/' :: name := by simp
    rw [e, LastIndexByteString]
    have hl : (a0 ++ '/' :: name).length = a0.length + 1 + name.length := by
      simp; omega
    rw [hl, LastIndexByteLoop_last a0 name h _ (le_refl _)]
    have : ((a0.length : Int) + 1).toNat = a0.length + 1 := by omega
    rw [this]
    have e2 : a0 ++ '/' :: name = (a0 ++ ['/']) ++ name := by simp
    rw [e2, List.drop_left']
    simp

/-- The cleaned form of a path that ends in a plain element and a separator
ends in that element, alone or after a separator. -/
theorem Clean_ends_with_element (q name : GoString) (hq : q = [] ∨ q.getLast? = some '/')
    (hn : plainElement name) :
    ∃ o, (o = [] ∨ o.getLast? = some '/') ∧ Clean (q ++ name ++ ['/']) = o ++ name := by
  have hne : q ++ name ++ ['/'] ≠ [] := by simp
  obtain ⟨c, tl, rfl⟩ : ∃ c tl, name = c :: tl := by
    cases name with
    | nil => exact absurd rfl hn.1
    | cons c tl => exact ⟨c, tl, rfl⟩
  have hc : c ≠ '/' := fun e => hn.2.1 (e ▸ List.mem_cons_self _ _)
  have key : ∀ (rooted : Bool) (q0 out : GoString) (dd fuel : Nat),
      (q0 = [] ∨ q0.getLast? = some '/') → (q0 ++ ((c :: tl) ++ ['/'])).length < fuel →
      (rooted = true → 1 ≤ dd ∧ out.head? = some '/') →
      (rooted = true → out.length = 1 → out = ['/']) → (rooted = false → out.length = 0 → out = []) →
      ∃ o, (o = [] ∨ o.getLast? = some '/') ∧
        cleanLoop rooted fuel (q0 ++ ((c :: tl) ++ ['/'])) out dd = o ++ (c :: tl) := by
    intro rooted q0 out dd fuel hq0 hfuel hinv _ _
    obtain ⟨f2, o2, d2, hf2, hi2, he2⟩ :=
      cleanLoop_skip rooted q0.length q0 (le_refl _) hq0 fuel ((c :: tl) ++ ['/']) out dd hfuel hinv
    obtain ⟨f, rfl⟩ : ∃ f, f2 = f + 2 := ⟨f2 - 2, by simp at hf2; omega⟩
    rw [he2, cleanLoop_plain rooted f (c :: tl) [] o2 d2 hn, cleanLoop_nil]
    refine ⟨_, ?_, rfl⟩
    split
    · exact Or.inr (by simp)
    · rename_i hcond
      push_neg at hcond
      cases hr : rooted with
      | true =>
        have hlen : o2.length = 1 := hcond.1 hr
        have hh := (hi2 hr).2
        cases o2 with
        | nil => simp at hlen
        | cons x xs =>
          have : xs = [] := by simpa using hlen
          subst this
          simp at hh
          subst hh
          exact Or.inr rfl
      | false =>
        have hlen : o2.length = 0 := hcond.2 hr
        exact Or.inl (List.length_eq_zero.mp hlen)
  have hfinish : ∀ (o res : GoString), res = o ++ (c :: tl) →
      (if res.length = 0 then ['.'] else res) = o ++ (c :: tl) := by
    intro o res hres
    rw [if_neg (by rw [hres]; simp)]
    exact hres
  unfold Clean
  rw [if_neg hne]
  by_cases hr : (q ++ (c :: tl) ++ ['/']).head? = some '/'
  · obtain ⟨q1, rfl⟩ : ∃ q1, q = '/' :: q1 := by
      cases q with
      | nil => simp at hr; exact absurd hr hc
      | cons d q1 => simp at hr; exact ⟨q1, by rw [hr]⟩
    have hq1 : q1 = [] ∨ q1.getLast? = some '/' := by
      cases q1 with
      | nil => exact Or.inl rfl
      | cons e q2 =>
        rcases hq with h | h
        · exact absurd h (by simp)
        · exact Or.inr (by simpa [List.getLast?_cons_cons] using h)
    obtain ⟨o, ho, he⟩ := key true q1 ['/'] 1 (('/' :: q1 ++ (c :: tl) ++ ['/']).length + 1) hq1
      (by simp; omega) (fun _ => ⟨le_refl _, rfl⟩) (fun _ _ => rfl) (fun h => absurd h (by decide))
    refine ⟨o, ho, ?_⟩
    simp only [hr, decide_True, if_true]
    apply hfinish o
    rw [← he]
    simp [List.append_assoc]
  · have hq0 := hq
    obtain ⟨o, ho, he⟩ := key false q [] 0 ((q ++ (c :: tl) ++ ['/']).length + 1) hq0
      (by simp) (fun h => absurd h (by decide)) (fun h => absurd h (by decide)) (fun _ _ => rfl)
    refine ⟨o, ho, ?_⟩
    simp only [hr, decide_False, if_false]
    apply hfinish o
    rw [← he]
    simp [List.append_assoc]

/-- The last segment of the cleaned form of `q ++ name ++ "/"` is `name`. -/
theorem Clean_last_segment (q name : GoString) (hq : q = [] ∨ q.getLast? = some '/')
    (hn : plainElement name) :
    (Clean (q ++ name ++ ['/'])).drop
      (LastIndexByteString (Clean (q ++ name ++ ['/'])) '/' + 1).toNat = name := by
  obtain ⟨o, ho, he⟩ := Clean_ends_with_element q name hq hn
  rw [he]
  exact drop_after_last_separator o name ho hn.2.1

/-- The scan of `filepath.Dir` stops at once on a trailing separator. -/
theorem dirSplitIndex_full (p : GoString) :
    dirSplitIndex (p ++ ['/']) (p ++ ['/']).length = (p ++ ['/']).length := by
  have : (p ++ ['/']).getD p.length '/' = '/' := by
    rw [List.getD_append_right _ _ _ _ (le_refl _)]
    simp
  rw [List.length_append, List.length_singleton, dirSplitIndex, if_neg (by simp)]

/-- The scan of `filepath.Dir` goes back over a last element without
separator. -/
theorem dirSplitIndex_name (p name : GoString) (h : '/' ∉ name) :
    ∀ k, k ≤ name.length →
      dirSplitIndex (p ++ ['/'] ++ name) ((p ++ ['/']).length + k) = (p ++ ['/']).length := by
  intro k
  induction k with
  | zero =>
    intro _
    have : (p ++ ['/'] ++ name).getD p.length '/' = '/' := by
      rw [List.append_assoc, List.getD_append_right _ _ _ _ (le_refl _)]
      simp
    rw [Nat.add_zero, List.length_append, List.length_singleton, dirSplitIndex,
      if_neg (by simpa using this)]
  | succ k ih =>
    intro hk
    have hlt : k < name.length := hk
    have hne : (p ++ ['/'] ++ name).getD ((p ++ ['/']).length + k) '/' ≠ '/' := by
      rw [List.getD_append_right _ _ _ _ (by omega)]
      have e : (p ++ ['/']).length + k - (p ++ ['/']).length = k := by omega
      rw [e, List.getD_eq_getElem _ _ hlt]
      exact fun e => h (e ▸ List.getElem_mem _)
    rw [← Nat.add_assoc, dirSplitIndex, if_pos hne]
    exact ih (Nat.le_of_lt hlt)

/-- On a path with a trailing separator `filepath.Dir` cleans the whole path. -/
theorem Dir_trailing_separator (p : GoString) : Dir (p ++ ['/']) = Clean (p ++ ['/']) := by
  rw [Dir, dirSplitIndex_full, List.take_length]

/-- On a path whose last element follows a separator `filepath.Dir` cleans
the part before that element. -/
theorem Dir_file (p name : GoString) (h : '/' ∉ name) :
    Dir (p ++ ['/'] ++ name) = Clean (p ++ ['/']) := by
  have hl : (p ++ ['/'] ++ name).length = (p ++ ['/']).length + name.length := by
    simp only [List.length_append]
  rw [Dir, hl, dirSplitIndex_name p name h _ (le_refl _), List.take_left']
  rfl

/-- The bound on the iterations of the loop of `filepath.Clean` is never
reached: every bound above the length of the unread input gives the same
result. -/
theorem cleanLoop_fuel (rooted : Bool) :
    ∀ (n : Nat) (rest : GoString), rest.length ≤ n →
    ∀ (f1 f2 : Nat) (out : GoString) (dd : Nat), rest.length < f1 → rest.length < f2 →
      cleanLoop rooted f1 rest out dd = cleanLoop rooted f2 rest out dd := by
  intro n
  induction n with
  | zero =>
    intro rest hlen f1 f2 out dd _ _
    have : rest = [] := List.length_eq_zero.mp (Nat.le_zero.mp hlen)
    subst this
    rw [cleanLoop_nil, cleanLoop_nil]
  | succ n ih =>
    intro rest hlen f1 f2 out dd h1 h2
    cases rest with
    | nil => rw [cleanLoop_nil, cleanLoop_nil]
    | cons c tl =>
      obtain ⟨a, rfl⟩ : ∃ a, f1 = a + 1 := ⟨f1 - 1, by simp at h1; omega⟩
      obtain ⟨b, rfl⟩ : ∃ b, f2 = b + 1 := ⟨f2 - 1, by simp at h2; omega⟩
      have htl : tl.length ≤ n := by simpa using hlen
      have ha : tl.length < a := by simpa using h1
      have hb : tl.length < b := by simpa using h2
      have htt : tl.tail.length ≤ tl.length := by simp
      rw [cleanLoop, cleanLoop]
      by_cases hc : c = '/'
      · rw [if_pos hc, if_pos hc]
        exact ih tl htl a b out dd ha hb
      · have hd : ((c :: tl).dropWhile (fun x => x != '/')).length ≤ tl.length := by
          rw [List.dropWhile_cons_of_pos (by simpa using hc)]
          exact (List.dropWhile_sublist _).length_le
        rw [if_neg hc, if_neg hc]
        split
        · exact ih tl htl a b out dd ha hb
        · split
          · split
            · exact ih _ (by omega) a b _ dd (by omega) (by omega)
            · split
              · exact ih _ (by omega) a b _ _ (by omega) (by omega)
              · exact ih _ (by omega) a b _ dd (by omega) (by omega)
          · exact ih _ (by omega) a b _ dd (by omega) (by omega)

/-- C7 (as stated, refuted): for the target directory
`svc/internal/modules/billing/usecase` the package name handed to
`defaultDataSource` is `billing`, the last segment of `filepath.Dir` of the
target directory, whatever the template loader; with a loader that shows its
data the stub reads `package billing` and not `package usecase`. -/
theorem parseTemplate_default_counterexample :
    (∀ loadTemplate : GoString → TemplateData Unit → GoString,
      parseTemplate loadTemplate
          (FileStructure.ofTarget "svc/internal/modules/billing/usecase".toList true [])
        = defaultDataSource loadTemplate "billing".toList) ∧
    parseTemplate stubLoader
        (FileStructure.ofTarget "svc/internal/modules/billing/usecase".toList true [])
      = "package billing".toList ∧
    parseTemplate stubLoader
        (FileStructure.ofTarget "svc/internal/modules/billing/usecase".toList true [])
      ≠ @defaultDataSource Unit stubLoader "usecase".toList := by
  refine ⟨fun loadTemplate => ?_, by decide, by decide⟩
  have h : (Dir "svc/internal/modules/billing/usecase".toList).drop
      (LastIndexByteString (Dir "svc/internal/modules/billing/usecase".toList) '/' + 1).toNat
      = "billing".toList := by decide
  unfold parseTemplate
  simp only [FileStructure.ofTarget, if_true, ne_eq, not_true_eq_false, if_false]
  rw [h]

/-- C7 (amended): for every node with `FromTemplate = true` and an empty
`Source`, `parseTemplate` renders the default package stub with the package
name equal to the last `/`-separated segment of `filepath.Dir(TargetDir)`.
For a target directory written with a trailing `/` and ending in a plain
directory name (`.../billing/usecase/`) that is this name (`usecase`); for a
target directory without trailing `/` whose last element follows a plain
directory name (`.../billing/usecase`) it is the name before the last element
(`billing`). -/
theorem parseTemplate_default {D : Type} (loadTemplate : GoString → TemplateData D → GoString)
    (f : FileStructure D) (hT : f.FromTemplate = true) (hS : f.Source = []) :
    parseTemplate loadTemplate f
      = defaultDataSource loadTemplate
          ((Dir f.TargetDir).drop (LastIndexByteString (Dir f.TargetDir) '/' + 1).toNat) ∧
    (∀ q name : GoString, (q = [] ∨ q.getLast? = some '/') → plainElement name →
      f.TargetDir = q ++ name ++ ['/'] →
      parseTemplate loadTemplate f = defaultDataSource loadTemplate name) ∧
    (∀ q parent name : GoString, (q = [] ∨ q.getLast? = some '/') → plainElement parent →
      '/' ∉ name → f.TargetDir = q ++ parent ++ ['/'] ++ name →
      parseTemplate loadTemplate f = defaultDataSource loadTemplate parent) := by
  have h0 : parseTemplate loadTemplate f
      = defaultDataSource loadTemplate
          ((Dir f.TargetDir).drop (LastIndexByteString (Dir f.TargetDir) '/' + 1).toNat) := by
    unfold parseTemplate
    simp only [hT, hS, if_true, ne_eq, not_true_eq_false, if_false]
  refine ⟨h0, ?_, ?_⟩
  · intro q name hq hn ht
    rw [h0, ht, Dir_trailing_separator, Clean_last_segment q name hq hn]
  · intro q parent name hq hp hn ht
    rw [h0, ht, Dir_file _ name hn, Clean_last_segment q parent hq hp]

/-- Witness for C7 (amended): the target directory
`svc/internal/modules/billing/usecase/` gives the stub `package usecase`. -/
theorem parseTemplate_default_witness :
    parseTemplate stubLoader
        (FileStructure.ofTarget "svc/internal/modules/billing/usecase/".toList true [])
      = "package usecase".toList :=
  ((parseTemplate_default stubLoader
      (FileStructure.ofTarget "svc/internal/modules/billing/usecase/".toList true [])
      rfl rfl).2.1
    "svc/internal/modules/billing/".toList "usecase".toList
    (Or.inr (by decide)) ⟨by decide, by decide, by decide, by decide⟩ (by decide)).trans
    (by decide)

/-! ### Freshness of `IsWorkerActive` -/

/-- The test `len(l) > 0` is the non-emptiness of `l`. -/
theorem decide_length_pos (l : List GoString) :
    Decidable.decide (l.length > 0) = !l.isEmpty := by
  cases l <;> simp

/-- C11 (as stated, refuted): a configuration with `KafkaHandler` set and an
up-to-date `IsWorkerActive = true` has a stale `IsWorkerActive` after
`disableAllHandler`. -/
theorem workerActiveFresh_disable_counterexample :
    workerActiveFresh
      (serviceConfig.ofParts { config.zero with KafkaHandler := true, IsWorkerActive := true }
        [] none).toconfig ∧
    ¬ workerActiveFresh (disableAllHandler
      (serviceConfig.ofParts { config.zero with KafkaHandler := true, IsWorkerActive := true }
        [] none)).toconfig := by
  constructor <;> (unfold workerActiveFresh; decide)

/-- C11 (amended): the predicate `IsWorkerActive = (a worker flag is set or
WorkerPlugins is non-empty)` holds after `checkWorkerActive` from every state
(so `checkWorkerActive` preserves it, also when it follows
`disableAllHandler`); `disableAllHandler` alone does not recompute the stored
field, and from a state that satisfies the predicate it leaves the predicate
true exactly when `IsWorkerActive` already equals the non-emptiness of
`WorkerPlugins`. -/
theorem workerActiveFresh_preserved {Plugin : Type} (c : config) (s : serviceConfig Plugin) :
    workerActiveFresh (checkWorkerActive c).2 ∧
    workerActiveFresh (serviceConfig.checkWorkerActive s).2.toconfig ∧
    workerActiveFresh (serviceConfig.checkWorkerActive (disableAllHandler s)).2.toconfig ∧
    (disableAllHandler s).IsWorkerActive = s.IsWorkerActive ∧
    (workerActiveFresh s.toconfig →
      (workerActiveFresh (disableAllHandler s).toconfig ↔
        s.IsWorkerActive = !s.WorkerPlugins.isEmpty)) := by
  have hc : ∀ c : config, workerActiveFresh (checkWorkerActive c).2 := by
    intro c
    unfold workerActiveFresh checkWorkerActive
    simp only [decide_length_pos]
    cases c.KafkaHandler <;> cases c.SchedulerHandler <;> cases c.RedisSubsHandler <;>
      cases c.TaskQueueHandler <;> cases c.PostgresListenerHandler <;>
      cases c.RabbitMQHandler <;> simp
  refine ⟨hc c, hc s.toconfig, hc (disableAllHandler s).toconfig, rfl, ?_⟩
  intro _
  unfold workerActiveFresh disableAllHandler
  simp

/-- Witness for C11 (amended): a fresh configuration with a plugin and the
Kafka flag stays fresh across `disableAllHandler`. -/
theorem workerActiveFresh_preserved_witness :
    workerActiveFresh (disableAllHandler
      (serviceConfig.ofParts
        { config.zero with KafkaHandler := true, IsWorkerActive := true, WorkerPlugins := [['p']] }
        [] none)).toconfig :=
  ((workerActiveFresh_preserved config.zero
      (serviceConfig.ofParts
        { config.zero with KafkaHandler := true, IsWorkerActive := true, WorkerPlugins := [['p']] }
        [] none)).2.2.2.2 (by unfold workerActiveFresh; decide)).mpr (by decide)

/-! ### Root middlewares -/

/-- C13 (the code at the failing input): on an option that already holds the
middleware `1`, `AddRootMiddlewares(2)` leaves the list `[1, 2]`, whereas
`SetRootMiddlewares(2)` leaves `[2]`: the root middleware is extended, not
overridden. -/
theorem AddRootMiddlewares_appends :
    (restserver.AddRootMiddlewares [2] (restserver.option.sample [1] [])).rootMiddlewares
      = [1, 2] ∧
    (restserver.SetRootMiddlewares [2] (restserver.option.sample [1] [])).rootMiddlewares
      = [2] ∧
    (restserver.AddRootMiddlewares [2] (restserver.option.sample [1] [])).rootMiddlewares
      ≠ [2] := by
  decide

/-! ### Literal nodes -/

/-- C15: for a node with `FromTemplate = false`, `parseTemplate` returns the
bytes of the node's `Source`, whatever the template loader, `DataSource`,
`TargetDir`, `FileName`, the skip flags and the children: any other such node
with the same `Source` gives the same bytes. -/
theorem parseTemplate_literal {D : Type} (loadTemplate : GoString → TemplateData D → GoString)
    (f : FileStructure D) (h : f.FromTemplate = false) :
    parseTemplate loadTemplate f = f.Source ∧
    (∀ (D2 : Type) (loadTemplate2 : GoString → TemplateData D2 → GoString)
      (f2 : FileStructure D2), f2.FromTemplate = false → f2.Source = f.Source →
      parseTemplate loadTemplate2 f2 = parseTemplate loadTemplate f) := by
  have key : ∀ (D2 : Type) (lt : GoString → TemplateData D2 → GoString) (g : FileStructure D2),
      g.FromTemplate = false → parseTemplate lt g = g.Source := by
    intro D2 lt g hg
    unfold parseTemplate
    simp [hg]
  refine ⟨key D loadTemplate f h, ?_⟩
  intro D2 lt2 f2 h2 hs
  rw [key D2 lt2 f2 h2, key D loadTemplate f h, hs]

/-- Witness for C15: a literal node whose source is a template text is
returned as it is. -/
theorem parseTemplate_literal_witness :
    parseTemplate stubLoader (FileStructure.ofTarget "api/".toList false defaultFile)
      = defaultFile :=
  (parseTemplate_literal stubLoader
    (FileStructure.ofTarget "api/".toList false defaultFile) rfl).1

/-! ### `parseMonorepoFlag` -/

/-- C17: `parseMonorepoFlag` returns a non-nil error exactly when `scopeFlag`
is `2` or `3` and `serviceName` is empty; in every case it sets
`packagePrefixFlag = "monorepo/services"`, `withGoModFlag = false`,
`protoOutputPkgFlag = "monorepo/sdk"` and `outputFlag = "services/"`, and the
receiver is otherwise unchanged. -/
theorem parseMonorepoFlag_spec (f : flagParameter) :
    ((parseMonorepoFlag f).2 ≠ none ↔
      ((f.scopeFlag = "2".toList ∨ f.scopeFlag = "3".toList) ∧ f.serviceName = [])) ∧
    (parseMonorepoFlag f).1.packagePrefixFlag = "monorepo/services".toList ∧
    (parseMonorepoFlag f).1.withGoModFlag = false ∧
    (parseMonorepoFlag f).1.protoOutputPkgFlag = "monorepo/sdk".toList ∧
    (parseMonorepoFlag f).1.outputFlag = "services/".toList ∧
    (parseMonorepoFlag f).1 =
      { f with
        packagePrefixFlag := "monorepo/services".toList
        withGoModFlag := false
        protoOutputPkgFlag := "monorepo/sdk".toList
        outputFlag := "services/".toList } := by
  have hfst : (parseMonorepoFlag f).1 =
      { f with
        packagePrefixFlag := "monorepo/services".toList
        withGoModFlag := false
        protoOutputPkgFlag := "monorepo/sdk".toList
        outputFlag := "services/".toList } := by
    unfold parseMonorepoFlag
    dsimp only
    split <;> rfl
  refine ⟨?_, ?_, ?_, ?_, ?_, hfst⟩
  · unfold parseMonorepoFlag
    dsimp only
    by_cases h : ((f.scopeFlag = "2".toList ∨ f.scopeFlag = "3".toList) ∧ f.serviceName = [])
    · have hb : ((Decidable.decide (f.scopeFlag = "2".toList) ||
          Decidable.decide (f.scopeFlag = "3".toList)) &&
          Decidable.decide (f.serviceName = [])) = true := by
        simpa using h
      rw [if_pos hb]
      exact ⟨fun _ => h, fun _ => by simp⟩
    · have hb : ¬ ((Decidable.decide (f.scopeFlag = "2".toList) ||
          Decidable.decide (f.scopeFlag = "3".toList)) &&
          Decidable.decide (f.serviceName = [])) = true := by
        simpa using h
      rw [if_neg hb]
      exact ⟨fun hne => absurd rfl hne, fun hh => absurd hh h⟩
  all_goals rw [hfst]

/-! ### The worker activation list and the activation query -/

/-- C18: the list returned by `constructModuleWorkerActivation` has no
duplicates, its length is the number of worker flags that are set, and it is
non-empty exactly when at least one of them is set; hence, when
`WorkerPlugins` is empty, `checkWorkerActive` on the module's configuration
returns true exactly when the list is non-empty. -/
theorem constructModuleWorkerActivation_count (m : moduleConfig) :
    (constructModuleWorkerActivation m).Nodup ∧
    (constructModuleWorkerActivation m).length = workerFlagCount m ∧
    (constructModuleWorkerActivation m ≠ [] ↔
      (m.KafkaHandler = true ∨ m.SchedulerHandler = true ∨ m.RedisSubsHandler = true ∨
        m.TaskQueueHandler = true ∨ m.PostgresListenerHandler = true ∨
        m.RabbitMQHandler = true)) ∧
    (m.WorkerPlugins = [] →
      ((checkWorkerActive m.toconfig).1 = true ↔ constructModuleWorkerActivation m ≠ [])) := by
  refine ⟨?_, ?_, ?_, ?_⟩
  · unfold constructModuleWorkerActivation
    cases m.KafkaHandler <;> cases m.SchedulerHandler <;> cases m.RedisSubsHandler <;>
      cases m.TaskQueueHandler <;> cases m.PostgresListenerHandler <;>
      cases m.RabbitMQHandler <;> decide
  · unfold constructModuleWorkerActivation workerFlagCount
    cases m.KafkaHandler <;> cases m.SchedulerHandler <;> cases m.RedisSubsHandler <;>
      cases m.TaskQueueHandler <;> cases m.PostgresListenerHandler <;>
      cases m.RabbitMQHandler <;> rfl
  · unfold constructModuleWorkerActivation
    cases m.KafkaHandler <;> cases m.SchedulerHandler <;> cases m.RedisSubsHandler <;>
      cases m.TaskQueueHandler <;> cases m.PostgresListenerHandler <;>
      cases m.RabbitMQHandler <;> simp
  · intro hp
    unfold constructModuleWorkerActivation checkWorkerActive
    simp only [hp]
    cases m.KafkaHandler <;> cases m.SchedulerHandler <;> cases m.RedisSubsHandler <;>
      cases m.TaskQueueHandler <;> cases m.PostgresListenerHandler <;>
      cases m.RabbitMQHandler <;> simp

/-- Witness for C18: a module with the scheduler and RabbitMQ flags and no
plugin is active and has a list of two identifiers. -/
theorem constructModuleWorkerActivation_count_witness :
    (checkWorkerActive
      { moduleConfig.zero with SchedulerHandler := true, RabbitMQHandler := true }.toconfig).1
      = true ∧
    constructModuleWorkerActivation
      { moduleConfig.zero with SchedulerHandler := true, RabbitMQHandler := true }
      = ["types.Scheduler".toList, "types.RabbitMQ".toList] :=
  ⟨((constructModuleWorkerActivation_count
      { moduleConfig.zero with SchedulerHandler := true, RabbitMQHandler := true }).2.2.2
      rfl).mpr (by decide),
   by decide⟩

/-! ### The frame of `disableAllHandler` -/

/-- C19: `disableAllHandler` is idempotent, and it leaves unchanged the header
fields, `IsMonorepo`, the dependency flags, `SQLDriver`, `WorkerPlugins` and
the `Modules` list with everything stored in each module configuration (as
well as `FiberRestHandler`, `IsWorkerActive`, `flag` and `workerPlugins`). -/
theorem disableAllHandler_frame {Plugin : Type} (s : serviceConfig Plugin) :
    disableAllHandler (disableAllHandler s) = disableAllHandler s ∧
    (disableAllHandler s).toconfigHeader = s.toconfigHeader ∧
    (disableAllHandler s).IsMonorepo = s.IsMonorepo ∧
    (disableAllHandler s).RedisDeps = s.RedisDeps ∧
    (disableAllHandler s).SQLDeps = s.SQLDeps ∧
    (disableAllHandler s).MongoDeps = s.MongoDeps ∧
    (disableAllHandler s).SQLUseGORM = s.SQLUseGORM ∧
    (disableAllHandler s).ArangoDeps = s.ArangoDeps ∧
    (disableAllHandler s).SQLDriver = s.SQLDriver ∧
    (disableAllHandler s).WorkerPlugins = s.WorkerPlugins ∧
    (disableAllHandler s).Modules = s.Modules ∧
    (disableAllHandler s).FiberRestHandler = s.FiberRestHandler ∧
    (disableAllHandler s).IsWorkerActive = s.IsWorkerActive ∧
    (disableAllHandler s).flag = s.flag ∧
    (disableAllHandler s).workerPlugins = s.workerPlugins :=
  ⟨rfl, rfl, rfl, rfl, rfl, rfl, rfl, rfl, rfl, rfl, rfl, rfl, rfl, rfl, rfl⟩

/-! ### Root-level target directories -/

/-- The scan of `filepath.Dir` reaches the start of a path without
separator. -/
theorem dirSplitIndex_absent (p : GoString) (h : '/' ∉ p) :
    ∀ k, k ≤ p.length → dirSplitIndex p k = 0 := by
  intro k
  induction k with
  | zero => intro _; rfl
  | succ k ih =>
    intro hk
    have hlt : k < p.length := hk
    have hne : p.getD k '/' ≠ '/' := by
      rw [List.getD_eq_getElem _ _ hlt]
      exact fun e => h (e ▸ List.getElem_mem _)
    rw [dirSplitIndex, if_pos hne]
    exact ih (Nat.le_of_lt hlt)

/-- On a path without separator `filepath.Dir` returns `.`. -/
theorem Dir_no_separator (p : GoString) (h : '/' ∉ p) : Dir p = ['.'] := by
  rw [Dir, dirSplitIndex_absent p h _ (le_refl _)]
  rfl

/-- C14 (as stated, refuted): for the root-level target directory `api` the
package name handed to `defaultDataSource` is `.`, not `api`. -/
theorem parseTemplate_root_counterexample :
    (∀ loadTemplate : GoString → TemplateData Unit → GoString,
      parseTemplate loadTemplate (FileStructure.ofTarget "api".toList true [])
        = defaultDataSource loadTemplate ".".toList) ∧
    parseTemplate stubLoader (FileStructure.ofTarget "api".toList true [])
      = "package .".toList ∧
    parseTemplate stubLoader (FileStructure.ofTarget "api".toList true [])
      ≠ @defaultDataSource Unit stubLoader "api".toList := by
  refine ⟨fun loadTemplate => ?_, by decide, by decide⟩
  have h : (Dir "api".toList).drop
      (LastIndexByteString (Dir "api".toList) '/' + 1).toNat = ".".toList := by decide
  unfold parseTemplate
  simp only [FileStructure.ofTarget, if_true, ne_eq, not_true_eq_false, if_false]
  rw [h]

/-- C14 (amended): for a node with `FromTemplate = true` and an empty
`Source`, a root-level target directory written with its trailing `/` (a plain
name followed by `/`) gives the package name equal to that name, the whole
target directory without the trailing `/`; a target directory that contains no
`/` gives the package name `.`. -/
theorem parseTemplate_root_level {D : Type}
    (loadTemplate : GoString → TemplateData D → GoString) (f : FileStructure D)
    (hT : f.FromTemplate = true) (hS : f.Source = []) :
    (∀ name : GoString, plainElement name → f.TargetDir = name ++ ['/'] →
      parseTemplate loadTemplate f = defaultDataSource loadTemplate name) ∧
    ('/' ∉ f.TargetDir →
      parseTemplate loadTemplate f = defaultDataSource loadTemplate ['.']) := by
  have h0 : parseTemplate loadTemplate f
      = defaultDataSource loadTemplate
          ((Dir f.TargetDir).drop (LastIndexByteString (Dir f.TargetDir) '/' + 1).toNat) := by
    unfold parseTemplate
    simp only [hT, hS, if_true, ne_eq, not_true_eq_false, if_false]
  refine ⟨?_, ?_⟩
  · intro name hn ht
    have e : name ++ ['/'] = [] ++ name ++ ['/'] := rfl
    rw [h0, ht, Dir_trailing_separator, e, Clean_last_segment [] name (Or.inl rfl) hn]
  · intro hsep
    rw [h0, Dir_no_separator _ hsep]
    rfl

/-- Witness for C14 (amended): the root-level target directory `api/` gives
the stub `package api`. -/
theorem parseTemplate_root_level_witness :
    parseTemplate stubLoader (FileStructure.ofTarget "api/".toList true [])
      = "package api".toList :=
  ((parseTemplate_root_level stubLoader (FileStructure.ofTarget "api/".toList true [])
      rfl rfl).1
    "api".toList ⟨by decide, by decide, by decide, by decide⟩ (by decide)).trans (by decide)

/-! ### Writing a file node -/

/-- C12 (as stated, refuted): a successful write over an existing file with
mode `0o755` replaces the bytes and keeps the mode `0o755`, which has execute
bits, instead of `0o644`. -/
theorem writeFile_mode_counterexample :
    fileAfter
        (writeFile stubLoader 0o022 none
          (FileSystem.single "out/main.go".toList { data := "old".toList, mode := 0o755 })
          (FileStructure.literal "main.go".toList "package main".toList) "out".toList).2
        "out/main.go".toList
      = some { data := "package main".toList, mode := 0o755 } ∧
    (0o755 : Nat) ≠ 0o644 ∧ (0o755 &&& 0o111 : Nat) ≠ 0 := by
  decide

/-- C12 (amended): over an explicit file system state, a successful
`writeFile(p)` leaves at `p + "/" + f.FileName` exactly the bytes
`f.parseTemplate()`, replacing any content that was there; the permission mode
of a file that existed before is kept, and a file that did not exist is
created with mode `0o644` less the umask bits, which has no execute bit and is
`0o644` under the umask `0o022`; no other path changes.  The call succeeds
whenever the operating system reports no failure. -/
theorem writeFile_success {D : Type} (loadTemplate : GoString → TemplateData D → GoString)
    (umask : Nat) (failure : error) (fs fs2 : FileSystem) (f : FileStructure D)
    (p : GoString)
    (h : (writeFile loadTemplate umask failure fs f p).2 = Except.ok fs2) :
    (∃ mode, fs2 (p ++ "/".toList ++ f.FileName)
        = some { data := parseTemplate loadTemplate f, mode := mode } ∧
      (∀ old, fs (p ++ "/".toList ++ f.FileName) = some old → mode = old.mode) ∧
      (fs (p ++ "/".toList ++ f.FileName) = none →
        mode = 0o644 &&& (0o777 ^^^ umask) ∧ mode &&& 0o111 = 0 ∧
        (umask = 0o022 → mode = 0o644))) ∧
    (∀ q, q ≠ p ++ "/".toList ++ f.FileName → fs2 q = fs q) ∧
    (∃ fs3, (writeFile loadTemplate umask none fs f p).2 = Except.ok fs3) := by
  unfold writeFile WriteFile at h
  cases failure with
  | some e => simp at h
  | none =>
    simp only [Except.ok.injEq] at h
    subst h
    refine ⟨⟨(match fs (p ++ "/".toList ++ f.FileName) with
        | some old => old.mode
        | none => 0o644 &&& (0o777 ^^^ umask)), ?_, ?_, ?_⟩, ?_, ⟨_, rfl⟩⟩
    · simp only [if_true]
    · intro old hold
      simp only [hold]
    · intro hnone
      simp only [hnone]
      refine ⟨trivial, ?_, ?_⟩
      · rw [Nat.land_comm 0o644 _, Nat.land_assoc]
        have hz : (0o644 &&& 0o111 : Nat) = 0 := by decide
        rw [hz]
        exact Nat.and_zero _
      · intro hu
        subst hu
        decide
    · intro q hq
      simp only [if_neg hq]

/-- Witness for C12 (amended): writing `main.go` under `out` on an empty file
system, with umask `0o022`, creates the file with mode `0o644`. -/
theorem writeFile_success_witness :
    fileAfter
        (writeFile stubLoader 0o022 none (fun _ => none)
          (FileStructure.literal "main.go".toList "package main".toList) "out".toList).2
        "out/main.go".toList
      = some (FileEntry.mk "package main".toList 0o644) := by
  obtain ⟨mode, h1, _, h3⟩ :=
    (writeFile_success stubLoader 0o022 none (fun _ => none)
      (fun q => fileAfter
        (writeFile stubLoader 0o022 none (fun _ => none)
          (FileStructure.literal "main.go".toList "package main".toList) "out".toList).2 q)
      (FileStructure.literal "main.go".toList "package main".toList) "out".toList rfl).1
  have hm : mode = 0o644 := (h3 rfl).2.2 rfl
  rw [hm] at h1
  exact h1

/-! ### Module child directories -/

/-- The function `strings.Join` on a non-empty list: the first element, then
the separator and the element for each other element. -/
theorem Join_cons (m : GoString) (ps : List GoString) (sep : GoString) :
    Join (m :: ps) sep = m ++ joinRest sep ps := by
  cases ps with
  | nil => simp [Join, joinRest]
  | cons e rest => rfl

/-- The writes after the first element, as the concatenation of the separator
followed by the element, for each element. -/
theorem joinRest_eq_flatten (sep : GoString) (ps : List GoString) :
    joinRest sep ps = (ps.map (fun seg => sep ++ seg)).flatten := by
  induction ps with
  | nil => rfl
  | cons e rest ih => simp [joinRest, ih]

/-- The writes after the first element start with the separator followed by
the joined elements. -/
theorem joinRest_eq_Join (sep : GoString) (ps : List GoString) (h : ps ≠ []) :
    joinRest sep ps = sep ++ Join ps sep := by
  cases ps with
  | nil => exact absurd rfl h
  | cons e rest => rw [Join_cons, joinRest, List.append_assoc]

/-- The function `strings.TrimPrefix` with the one-byte text `/`: exactly one
leading `/` is removed when there is one. -/
theorem TrimPrefix_separator (s : GoString) :
    TrimPrefix s ['/'] = if s.head? = some '/' then s.tail else s := by
  cases s with
  | nil => rfl
  | cons b t =>
    by_cases hb : b = '/'
    · subst hb
      simp [TrimPrefix, HasPrefix]
    · simp [TrimPrefix, HasPrefix, hb]

/-- Removing the leading `/` of a non-empty text commutes with appending. -/
theorem TrimPrefix_append (b : Char) (t y : GoString) :
    TrimPrefix ((b :: t) ++ y) ['/'] = TrimPrefix (b :: t) ['/'] ++ y := by
  rw [TrimPrefix_separator, TrimPrefix_separator]
  by_cases hb : b = '/'
  · subst hb
    simp
  · simp [hb]

/-- C16: `getFullModuleChildDir(ps...)` is the text
`outputFlag + serviceName + "/internal/modules/" + moduleName` followed by
`"/" + segment` for each segment of `ps` in order, with exactly one leading
`/` removed when the text starts with `/`; for a non-empty `ps` it is
`getFullModuleChildDir() + "/" + join(ps, "/")`, so it lies under the module
directory. -/
theorem getFullModuleChildDir_spec (f : flagParameter) (ps : List GoString) :
    getFullModuleChildDir f ps =
      (if (f.outputFlag ++ f.serviceName ++ "/internal/modules/".toList ++ f.moduleName
            ++ (ps.map (fun seg => "/".toList ++ seg)).flatten).head? = some '/'
       then (f.outputFlag ++ f.serviceName ++ "/internal/modules/".toList ++ f.moduleName
            ++ (ps.map (fun seg => "/".toList ++ seg)).flatten).tail
       else f.outputFlag ++ f.serviceName ++ "/internal/modules/".toList ++ f.moduleName
            ++ (ps.map (fun seg => "/".toList ++ seg)).flatten) ∧
    (ps ≠ [] →
      getFullModuleChildDir f ps
        = getFullModuleChildDir f [] ++ "/".toList ++ Join ps "/".toList) ∧
    (ps ≠ [] →
      List.IsPrefix (getFullModuleChildDir f [] ++ "/".toList) (getFullModuleChildDir f ps)) := by
  have hfull : ∀ qs : List GoString, getFullModuleChildDir f qs =
      TrimPrefix (f.outputFlag ++ f.serviceName ++ "/internal/modules/".toList ++ f.moduleName
        ++ joinRest "/".toList qs) ['/'] := by
    intro qs
    unfold getFullModuleChildDir
    simp only [List.singleton_append, Join_cons, List.append_assoc]
    rfl
  obtain ⟨b, t, hbase⟩ : ∃ b t,
      f.outputFlag ++ f.serviceName ++ "/internal/modules/".toList ++ f.moduleName = b :: t := by
    cases h : f.outputFlag ++ f.serviceName ++ "/internal/modules/".toList ++ f.moduleName with
    | nil =>
      have hl := congrArg List.length h
      simp at hl
    | cons b t => exact ⟨b, t, rfl⟩
  have hsplit : ps ≠ [] → getFullModuleChildDir f ps
      = getFullModuleChildDir f [] ++ "/".toList ++ Join ps "/".toList := by
    intro hps
    rw [hfull ps, hfull [], joinRest_eq_Join _ ps hps, hbase]
    simp only [joinRest, List.append_nil]
    rw [TrimPrefix_append, List.append_assoc]
  refine ⟨?_, hsplit, ?_⟩
  · rw [hfull ps, TrimPrefix_separator, joinRest_eq_flatten]
  · intro hps
    rw [hsplit hps]
    exact ⟨Join ps "/".toList, rfl⟩

/-- Witness for C16: the child directory `delivery/resthandler` of module
`billing` in service `shop` under `services/`. -/
theorem getFullModuleChildDir_spec_witness :
    getFullModuleChildDir
        { flagParameter.zero with outputFlag := "services/".toList, serviceName := "shop".toList, moduleName := "billing".toList }
        ["delivery".toList, "resthandler".toList]
      = "services/shop/internal/modules/billing".toList ++ "/".toList
          ++ "delivery/resthandler".toList :=
  ((getFullModuleChildDir_spec
      { flagParameter.zero with outputFlag := "services/".toList, serviceName := "shop".toList, moduleName := "billing".toList }
      ["delivery".toList, "resthandler".toList]).2.1 (by decide)).trans (by decide)

/-! ### `SetRootPath` -/

/-- The function `trimLeftByte` drops the leading bytes equal to `c`. -/
theorem trimLeftByte_eq_dropWhile (s : GoString) (c : Char) :
    trimLeftByte s c = s.dropWhile (fun b => b == c) := by
  induction s with
  | nil => rfl
  | cons b t ih =>
    by_cases hb : b = c
    · subst hb
      simp [trimLeftByte, ih]
    · simp [trimLeftByte, hb]

/-- The loop of `trimRightByte` never lengthens the text. -/
theorem trimRightLength_le (s : GoString) (c : Char) : ∀ k, trimRightLength s c k ≤ k := by
  intro k
  induction k with
  | zero => exact le_refl _
  | succ k ih =>
    rw [trimRightLength]
    split
    · exact Nat.le_succ_of_le ih
    · exact le_refl _

/-- The loop of `trimRightByte` only reads the bytes before the current
length. -/
theorem trimRightLength_append (t x : GoString) (c : Char) :
    ∀ k, k ≤ t.length → trimRightLength (t ++ x) c k = trimRightLength t c k := by
  intro k
  induction k with
  | zero => intro _; rfl
  | succ k ih =>
    intro hk
    have hlt : k < t.length := hk
    rw [trimRightLength, trimRightLength, List.getD_append _ _ _ _ hlt, ih (Nat.le_of_lt hlt)]

/-- The function `trimRightByte` drops the trailing bytes equal to `c`. -/
theorem trimRightByte_eq_rdropWhile (s : GoString) (c : Char) :
    trimRightByte s c = s.rdropWhile (fun b => b == c) := by
  induction s using List.reverseRecOn with
  | nil => rfl
  | append_singleton t b ih =>
    have hget : (t ++ [b]).getD t.length c = b := by
      rw [List.getD_append_right _ _ _ _ (le_refl _)]
      simp
    unfold trimRightByte at ih ⊢
    rw [List.length_append, List.length_singleton, trimRightLength, hget]
    by_cases hb : b = c
    · subst hb
      rw [if_pos rfl, trimRightLength_append t [b] b _ (le_refl _),
        List.take_append_of_le_length (trimRightLength_le t b _), ih,
        List.rdropWhile_concat_pos _ _ _ (by simp)]
    · rw [if_neg hb, List.rdropWhile_concat_neg _ _ _ (by simpa using hb)]
      have : t.length + 1 = (t ++ [b]).length := by simp
      rw [this, List.take_length]

/-- Dropping at the left and dropping at the right commute. -/
theorem dropWhile_rdropWhile_comm (p : Char → Bool) (s : GoString) :
    (s.rdropWhile p).dropWhile p = (s.dropWhile p).rdropWhile p := by
  induction s using List.reverseRecOn with
  | nil => rfl
  | append_singleton t b ih =>
    by_cases hb : p b = true
    · rw [List.rdropWhile_concat_pos _ _ _ hb, ih, List.dropWhile_append]
      split
      · rename_i hemp
        have hnil : List.dropWhile p t = [] := List.isEmpty_iff.mp hemp
        rw [hnil]
        simp [hb]
      · rw [List.rdropWhile_concat_pos _ _ _ hb]
    · rw [List.rdropWhile_concat_neg _ _ _ hb, List.dropWhile_append]
      split
      · simp [List.rdropWhile, List.dropWhile, hb]
      · rw [List.rdropWhile_concat_neg _ _ _ hb]

/-- The function `strings.Trim` with the cutset `/` removes all leading and
all trailing `/`. -/
theorem Trim_eq_trimSlashes (s : GoString) : Trim s '/' = trimSlashes s := by
  unfold Trim
  rw [trimLeftByte_eq_dropWhile, trimRightByte_eq_rdropWhile, dropWhile_rdropWhile_comm]
  rfl

/-- The test `strings.HasPrefix(s, "/")` holds exactly when `s` starts with
`/`. -/
theorem HasPrefix_separator (s : GoString) :
    HasPrefix s "/".toList = true ↔ s.head? = some '/' := by
  cases s with
  | nil => simp [HasPrefix]
  | cons b t => simp [HasPrefix]

/-- C20: after `SetRootPath(rootPath)` the field `rootPath` begins with `/`:
it is `rootPath` unchanged when `rootPath` starts with `/`, and otherwise `/`
followed by `rootPath` with all leading and trailing `/` trimmed; applying
`SetRootPath` again with the resulting value changes nothing, and no other
field of the option is modified. -/
theorem SetRootPath_spec {M H R L G T : Type} (rootPath : GoString)
    (o : restserver.option M H R L G T) :
    (restserver.SetRootPath rootPath o).rootPath.head? = some '/' ∧
    (rootPath.head? = some '/' → (restserver.SetRootPath rootPath o).rootPath = rootPath) ∧
    (rootPath.head? ≠ some '/' →
      (restserver.SetRootPath rootPath o).rootPath = '/' :: trimSlashes rootPath) ∧
    restserver.SetRootPath (restserver.SetRootPath rootPath o).rootPath
        (restserver.SetRootPath rootPath o)
      = restserver.SetRootPath rootPath o ∧
    restserver.SetRootPath rootPath o
      = { o with rootPath := (restserver.SetRootPath rootPath o).rootPath } := by
  have hpos : rootPath.head? = some '/' →
      (restserver.SetRootPath rootPath o).rootPath = rootPath := by
    intro h
    have hp := (HasPrefix_separator rootPath).mpr h
    unfold restserver.SetRootPath
    simp only [hp, Bool.not_true, Bool.false_eq_true, if_false]
  have hneg : rootPath.head? ≠ some '/' →
      (restserver.SetRootPath rootPath o).rootPath = '/' :: trimSlashes rootPath := by
    intro h
    have hp : HasPrefix rootPath "/".toList = false := by
      rw [← Bool.not_eq_true]
      exact fun e => h ((HasPrefix_separator rootPath).mp e)
    unfold restserver.SetRootPath
    simp only [hp, Bool.not_false, if_true, Trim_eq_trimSlashes]
    rfl
  have hhead : (restserver.SetRootPath rootPath o).rootPath.head? = some '/' := by
    by_cases h : rootPath.head? = some '/'
    · rw [hpos h]; exact h
    · rw [hneg h]; rfl
  refine ⟨hhead, hpos, hneg, ?_, rfl⟩
  have hp := (HasPrefix_separator _).mpr hhead
  unfold restserver.SetRootPath at hp ⊢
  simp only [hp, Bool.not_true, Bool.false_eq_true, if_false]

/-- Witness for C20: `api/v1/` becomes `/api/v1`, and `/api/` stays as it
is. -/
theorem SetRootPath_spec_witness :
    (restserver.SetRootPath "api/v1/".toList (restserver.option.sample [] [])).rootPath
      = "/api/v1".toList ∧
    (restserver.SetRootPath "/api/".toList (restserver.option.sample [] [])).rootPath
      = "/api/".toList :=
  ⟨((SetRootPath_spec "api/v1/".toList (restserver.option.sample [] [])).2.2.1
      (by decide)).trans (by decide),
   (SetRootPath_spec "/api/".toList (restserver.option.sample [] [])).2.1 (by decide)⟩

end Candi
